import Mathlib

namespace TemplateCli


/-! The generate command of node-template-cli.

A shallow embedding of `main.go`: the interactive menus, the frontend generator that
delegates to `npx`, and the backend generator that writes a fixed tree. The process state
is threaded explicitly, the operating system is a small deterministic model, and what the
program cannot determine (the search path, the external generator, the iteration order of
a Go map) is a parameter.

Path strings come first. Go strings are `String`. `Clean` and `Join` model `path/filepath` on a Unix target, which
`generateBackendStructure` calls for every path it creates.
-/

/-- Splits a character sequence at every `/`; the pieces may be empty. -/
def splitSlash : List Char → List (List Char)
  | [] => [[]]
  | c :: cs =>
    if c = '/' then [] :: splitSlash cs
    else match splitSlash cs with
      | [] => [[c]]
      | h :: t => (c :: h) :: t

/-- The elements of a path, separated by `/`. -/
def splitPath (s : String) : List String := (splitSlash s.data).map String.mk

/-- A path is rooted when it starts with the separator. -/
def isRooted (s : String) : Bool :=
  match s.data with
  | c :: _ => c == '/'
  | [] => false

/-- Go's `strings.Join(elems, "/")`. -/
def joinSlash : List String → String
  | [] => ""
  | [a] => a
  | a :: b :: rest => a ++ "/" ++ joinSlash (b :: rest)

/-- One element of `filepath.Clean`: empty and `.` elements are dropped, `..` removes the
preceding real element, stays in front of a relative path when there is none, and is
dropped at the root. -/
def cleanStep (rooted : Bool) (stack : List String) (c : String) : List String :=
  if c = "" ∨ c = "." then stack
  else if c = ".." then
    match stack.getLast? with
    | some top => if top = ".." then stack ++ [".."] else stack.dropLast
    | none => if rooted then [] else [".."]
  else stack ++ [c]

/-- Go's `filepath.Clean`: the shortest equivalent path by purely lexical processing; the
empty path and a relative path that cancels out become `.`. -/
def Clean (path : String) : String :=
  if path = "" then "."
  else
    let rooted := isRooted path
    let stack := (splitPath path).foldl (cleanStep rooted) []
    if rooted then "/" ++ joinSlash stack
    else if stack = [] then "."
    else joinSlash stack

/-- Go's `filepath.Join`: leading empty elements are skipped, the rest is joined with the
separator and cleaned; all elements empty gives the empty string. -/
def Join (elem : List String) : String :=
  match elem.dropWhile (fun e => e == "") with
  | [] => ""
  | e :: rest => Clean (joinSlash (e :: rest))

/-- Follows path elements from a location, lexically: `.` and empty elements stay, `..`
goes to the parent (the root is its own parent), a name goes to that child. -/
def walk (cur : List String) : List String → List String
  | [] => cur
  | c :: cs =>
    if c = "" ∨ c = "." then walk cur cs
    else if c = ".." then walk cur.dropLast cs
    else walk (cur ++ [c]) cs

/-- The location a path denotes from working directory `cwd`, as the list of names from
the root. There are no symbolic links, and resolution is lexical: it agrees with the
operating system on plain names and on cleaned paths, which are the only paths the program
passes (`frontend`, and the results of `Join`). For a path whose `..` steps back over an
element that does not exist, or that ends in a separator, the operating system may refuse
where this function answers; no statement below is about such a path. -/
def resolve (cwd : List String) (path : String) : List String :=
  walk (if isRooted path then [] else cwd) (splitPath path)


/-- A regular path element: non-empty, not a dot element, free of separators. -/
def IsName (s : String) : Prop :=
  s ≠ "" ∧ s ≠ "." ∧ s ≠ ".." ∧ '/' ∉ s.data

instance (s : String) : Decidable (IsName s) := by
  unfold IsName; infer_instance

/-- A portable file name: a regular path element of at most 255 characters, all of them
letters, digits, dots, underscores or hyphens. The fixed names of the program, `frontend`
and `backend`, are of this kind. -/
def IsPortableName (s : String) : Prop :=
  IsName s ∧ s.length ≤ 255 ∧ ∀ c ∈ s.data, c.isAlphanum = true ∨ c = '.' ∨ c = '_' ∨ c = '-'

instance (s : String) : Decidable (IsPortableName s) := by
  unfold IsPortableName; infer_instance

/-! ## Filesystem model

A filesystem is a working directory and a table from locations to nodes; the root always
exists. Operations fail only for structural reasons (a missing entry, a regular file where
a directory is needed, a directory where a file is needed); permissions, quotas and device
errors are outside the model. -/

inductive Node where
  | dir
  | file (content : String)
  deriving DecidableEq, Repr

structure FS where
  cwd : List String
  nodes : List (List String × Node)
  deriving DecidableEq, Repr

/-- The filesystem that holds nothing but its root, which is also the working directory. -/
def FS.empty : FS := { cwd := [], nodes := [] }

/-- The first node recorded for a location; later records of the same location are
shadowed. -/
def lookupNode (loc : List String) : List (List String × Node) → Option Node
  | [] => none
  | (k, n) :: rest => if k = loc then some n else lookupNode loc rest

/-- What exists at a location, if anything. -/
def FS.stat (fs : FS) (loc : List String) : Option Node :=
  if loc = [] then some Node.dir else lookupNode loc fs.nodes

def FS.insert (fs : FS) (loc : List String) (n : Node) : FS :=
  { fs with nodes := (loc, n) :: fs.nodes }

/-- The names recorded directly below a location. -/
def FS.entries (fs : FS) (loc : List String) : List String :=
  fs.nodes.filterMap fun kn =>
    if kn.1 ≠ [] ∧ kn.1.dropLast = loc then kn.1.getLast? else none

/-- Creates, from `done` downwards, every directory on the way that does not exist yet.
The error text names the whole argument, where Go names the element found to be a regular
file; the kind of failure and the state are the same. -/
def mkdirFrom (path : String) (fs : FS) (done : List String) :
    List String → Except String FS
  | [] => .ok fs
  | n :: rest =>
    match fs.stat (done ++ [n]) with
    | some Node.dir => mkdirFrom path fs (done ++ [n]) rest
    | some (Node.file _) => .error ("mkdir " ++ path ++ ": not a directory")
    | none => mkdirFrom path (fs.insert (done ++ [n]) Node.dir) (done ++ [n]) rest

/-- Go's `os.MkdirAll`: creates the directory and any missing parents; an existing
directory is not an error, a regular file on the way is. -/
def FS.mkdirAll (fs : FS) (path : String) : Except String FS :=
  if path = "" then .error "mkdir : no such file or directory"
  else mkdirFrom path fs [] (resolve fs.cwd path)

/-- Go's `os.WriteFile`: creates or truncates the file; the parent must be an existing
directory and the target must not be a directory. -/
def FS.writeFile (fs : FS) (path : String) (content : String) : Except String FS :=
  if path = "" then .error "open : no such file or directory"
  else
    let loc := resolve fs.cwd path
    match fs.stat loc with
    | some Node.dir => .error ("open " ++ path ++ ": is a directory")
    | _ =>
      match fs.stat loc.dropLast with
      | some Node.dir => .ok (fs.insert loc (Node.file content))
      | some (Node.file _) => .error ("open " ++ path ++ ": not a directory")
      | none => .error ("open " ++ path ++ ": no such file or directory")

/-- Go's `os.Open`: succeeds on anything that exists and yields a handle, here the
location. -/
def FS.openPath (fs : FS) (path : String) : Except String (List String) :=
  if path = "" then .error "open : no such file or directory"
  else
    match fs.stat (resolve fs.cwd path) with
    | some _ => .ok (resolve fs.cwd path)
    | none => .error ("open " ++ path ++ ": no such file or directory")

inductive ReadErr where
  | eof
  | notDir
  deriving DecidableEq, Repr

/-- Go's `(*os.File).Readdirnames(n)` for positive `n` on a fresh handle: up to `n` names,
with `io.EOF` exactly when the directory has none; a handle on a regular file gives
another error. -/
def FS.readdirnames (fs : FS) (loc : List String) (n : Nat) : List String × Option ReadErr :=
  match fs.stat loc with
  | some Node.dir =>
    match (fs.entries loc).take n with
    | [] => ([], some ReadErr.eof)
    | names => (names, none)
  | _ => ([], some ReadErr.notDir)

/-! ## Process environment and state -/

/-- What the process does to the outside, in order: a line on standard output, the message
of `log.Fatalf`, `cmd.Run` of an external command together with whether it reported no
error, a successful `os.MkdirAll`, a successful `os.WriteFile`. -/
inductive Event where
  | stdout (text : String)
  | fatal (text : String)
  | exec (argv : List String) (ok : Bool)
  | mkdirAll (path : String)
  | writeFile (path : String) (content : String)
  deriving DecidableEq, Repr

/-- The result of running an external command: the error `cmd.Run` returns, if any (the
command could not be started or did not exit with status 0), and the filesystem it
left. -/
structure ProcResult where
  err : Option String
  fs : FS

/-- What the program does not determine: `exec.LookPath`, the behaviour of external
commands, and the order in which `range` visits the entries of a map. -/
structure Env where
  lookPath : String → Bool
  run : List String → FS → ProcResult
  rangeOrder : List (String × String) → List (String × String)
  rangeOrder_perm : ∀ m, (rangeOrder m).Perm m

/-- The process state: the package-level variable `useTypeScript`, the filesystem, and the
events so far. -/
structure World where
  useTypeScript : Bool
  fs : FS
  trace : List Event
  deriving DecidableEq, Repr

/-- How a function call ends: it returns, the process exits with a status, or the call
never ends. The unread part of standard input is carried along; the integers on it are
the tokens `fmt.Scan` will read. -/
inductive Outcome where
  | returned (stdin : List Int) (w : World)
  | exited (code : Nat) (stdin : List Int) (w : World)
  | diverged (w : World)
  deriving DecidableEq, Repr

/-- Sequencing of statements: the next one runs only if the previous one returned. -/
def Outcome.andThen (o : Outcome) (k : List Int → World → Outcome) : Outcome :=
  match o with
  | .returned stdin w => k stdin w
  | other => other

def Outcome.world : Outcome → World
  | .returned _ w => w
  | .exited _ _ w => w
  | .diverged w => w

def emit (e : Event) (w : World) : World :=
  { w with trace := w.trace ++ [e] }

/-- Go's `fmt.Println` of one string. -/
def println (s : String) (w : World) : World :=
  emit (Event.stdout (s ++ "\n")) w

/-- The value `fmt.Scan` leaves in an `int` variable that was zero: the token when it fits
in 64 bits, otherwise the scan fails and the variable keeps its zero. -/
def scanValue (tok : Int) : Int :=
  if -(2 ^ 63) ≤ tok ∧ tok < 2 ^ 63 then tok else 0

/-- Assignment into a Go map: an existing key gets the new value, a new key is added. -/
def mapInsert (m : List (String × String)) (k v : String) : List (String × String) :=
  match m with
  | [] => [(k, v)]
  | (k', v') :: rest => if k' = k then (k, v) :: rest else (k', v') :: mapInsert rest k v

/-- A Go map literal whose keys are computed at run time: the entries are assigned in
order. -/
def mapLit (entries : List (String × String)) : List (String × String) :=
  entries.foldl (fun m kv => mapInsert m kv.1 kv.2) []

/-! ## The program -/

def sampleExpressApp : String :=
  "const express = require('express');\nconst app = express();\n\napp.get('/', (req, res) => \x7b\n  res.send('Hello from Express!');\n\x7d);\n\napp.listen(3000, () => \x7b\n  console.log('Server is running on port 3000');\n\x7d);"

def expressPackageJSON : String :=
  "\x7b\n  \"name\": \"express-app\",\n  \"version\": \"1.0.0\",\n  \"dependencies\": \x7b\n    \"express\": \"^4.17.1\"\n  \x7d\n\x7d"

def checkDependencies (env : Env) (stdin : List Int) (w : World) : Outcome :=
  let w := println "Checking for Node.js..." w
  if env.lookPath "node" then
    .returned stdin (println "Node.js is installed." w)
  else
    let w := println "Node.js is not installed." w
    let w := println "Please install Node.js from https://nodejs.org/en/download/" w
    .exited 1 stdin w

/-- The result is the emptiness of the directory, or the state in which `log.Fatalf` ends
the process with status 1 because the path could not be opened. -/
def isDirectoryEmpty (dir : String) (w : World) : Except World Bool :=
  match w.fs.openPath dir with
  | .error err => .error (emit (Event.fatal ("Error opening directory: " ++ err)) w)
  | .ok f => .ok ((w.fs.readdirnames f 1).2 == some ReadErr.eof)

def generateFrontendStructure (env : Env) (basePath framework : String)
    (stdin : List Int) (w : World) : Outcome :=
  match isDirectoryEmpty basePath w with
  | .error w => .exited 1 stdin w
  | .ok false =>
    .exited 1 stdin (emit (Event.stdout ("Directory " ++ basePath ++
      " contains files that could conflict. Please use an empty directory.\n")) w)
  | .ok true =>
    let done := fun (w : World) =>
      Outcome.returned stdin
        (emit (Event.stdout ("Frontend project created at: " ++ basePath ++ "\n")) w)
    if framework = "react" then
      let r := env.run ["npx", "create-react-app", basePath] w.fs
      match r.err with
      | some err =>
        .exited 1 stdin (emit (Event.fatal ("Error creating React app: " ++ err))
          (emit (Event.exec ["npx", "create-react-app", basePath] false) { w with fs := r.fs }))
      | none => done (emit (Event.exec ["npx", "create-react-app", basePath] true) { w with fs := r.fs })
    else if framework = "next" then
      let r := env.run ["npx", "create-next-app", basePath] w.fs
      match r.err with
      | some err =>
        .exited 1 stdin (emit (Event.fatal ("Error creating Next.js app: " ++ err))
          (emit (Event.exec ["npx", "create-next-app", basePath] false) { w with fs := r.fs }))
      | none => done (emit (Event.exec ["npx", "create-next-app", basePath] true) { w with fs := r.fs })
    else done w

/-- The loop of `createFiles` over the entries in the order `range` yields them. -/
def writeEach : List (String × String) → List Int → World → Outcome
  | [], stdin, w => .returned stdin w
  | (path, content) :: rest, stdin, w =>
    match w.fs.writeFile path content with
    | .error err =>
      .exited 1 stdin (emit (Event.fatal ("Error creating file " ++ path ++ ": " ++ err)) w)
    | .ok fs =>
      writeEach rest stdin
        (emit (Event.stdout ("Created file: " ++ path ++ "\n"))
          (emit (Event.writeFile path content) { w with fs := fs }))

def createFiles (env : Env) (files : List (String × String)) (stdin : List Int) (w : World) :
    Outcome :=
  writeEach (env.rangeOrder files) stdin w

/-- The loop of `generateBackendStructure` over `dirs`; an error result is the state in
which `log.Fatalf` ends the process. -/
def mkdirEach : List String → World → Except World World
  | [], w => .ok w
  | dir :: rest, w =>
    match w.fs.mkdirAll dir with
    | .error err =>
      .error (emit (Event.fatal ("Error creating directory " ++ dir ++ ": " ++ err)) w)
    | .ok fs =>
      mkdirEach rest
        (emit (Event.stdout ("Created directory: " ++ dir ++ "\n"))
          (emit (Event.mkdirAll dir) { w with fs := fs }))

/-- The local `dirs` of `generateBackendStructure`. -/
def backendDirs (basePath : String) : List String :=
  [ Join [basePath, "src", "controllers"],
    Join [basePath, "src", "routes"],
    Join [basePath, "src", "models"] ]

/-- The local `ext` of `generateBackendStructure`. -/
def backendExt (useTypeScript : Bool) : String :=
  if useTypeScript then ".ts" else ".js"

/-- The local `files` of `generateBackendStructure`. -/
def backendFiles (basePath : String) (useTypeScript : Bool) : List (String × String) :=
  mapLit
    [ (Join [basePath, "src", "index" ++ backendExt useTypeScript], sampleExpressApp),
      (Join [basePath, "package.json"], expressPackageJSON) ]

def generateBackendStructure (env : Env) (basePath : String) (stdin : List Int) (w : World) :
    Outcome :=
  let dirs := backendDirs basePath
  let useTS := w.useTypeScript
  match mkdirEach dirs w with
  | .error w => .exited 1 stdin w
  | .ok w => createFiles env (backendFiles basePath useTS) stdin w

def invalidOption : String := "Invalid option. Please select a valid number."

/-- On exhausted input `fmt.Scan` fails and leaves zero, so the prompt and the
invalid-option line are printed again and again without end. That is the `diverged`
outcome; it carries the state in which the endless repetition starts, and its trace does
not hold the repeated lines. The other three prompts do the same. -/
def selectProjectExt : List Int → World → Outcome
  | [], w => .diverged w
  | tok :: rest, w =>
    let w := println "2. JavaScript" (println "1. TypeScript" (println "Select project extension:" w))
    let projectExt := scanValue tok
    if projectExt = 1 then .returned rest { w with useTypeScript := true }
    else if projectExt = 2 then .returned rest { w with useTypeScript := false }
    else selectProjectExt rest (println invalidOption w)

def selectFrontendFramework (env : Env) : List Int → World → Outcome
  | [], w => .diverged w
  | tok :: rest, w =>
    let w := println "2. Next.js" (println "1. React" (println "Select a frontend framework:" w))
    let framework := scanValue tok
    if framework = 1 then generateFrontendStructure env "frontend" "react" rest w
    else if framework = 2 then generateFrontendStructure env "frontend" "next" rest w
    else selectFrontendFramework env rest (println invalidOption w)

def selectBackendFramework (env : Env) : List Int → World → Outcome
  | [], w => .diverged w
  | tok :: rest, w =>
    let w := println "1. Node.js with Express" (println "Select a backend framework:" w)
    let framework := scanValue tok
    if framework = 1 then generateBackendStructure env "backend" rest w
    else selectBackendFramework env rest (println invalidOption w)

def selectProjectType (env : Env) : List Int → World → Outcome
  | [], w => .diverged w
  | tok :: rest, w =>
    let w := println "3. Full-stack (Frontend + Backend)" (println "2. Backend only"
      (println "1. Frontend only" (println "Select project type:" w)))
    let projectType := scanValue tok
    if projectType = 1 then selectFrontendFramework env rest w
    else if projectType = 2 then selectBackendFramework env rest w
    else if projectType = 3 then
      (selectFrontendFramework env rest w).andThen (selectBackendFramework env)
    else selectProjectType env rest (println invalidOption w)

/-- The `Run` function of `generateCmd`. The world it starts in holds in `useTypeScript`
the value of the `--typescript` flag, which the flag parser stored before `Run`. -/
def generateCmd (env : Env) (stdin : List Int) (w : World) : Outcome :=
  ((checkDependencies env stdin w).andThen selectProjectExt).andThen (selectProjectType env)

/-- An environment for concrete runs: whether node is found, the error every external
command reports (it leaves the filesystem alone), and maps visited in insertion order. -/
def idEnv (node : Bool) (procErr : Option String) : Env :=
  { lookPath := fun _ => node
    run := fun _ fs => { err := procErr, fs := fs }
    rangeOrder := id
    rangeOrder_perm := fun _ => List.Perm.refl _ }

/-! ## Vocabulary of the specification -/

/-- The locations `mkdirFrom` may create: `done` extended by a non-empty prefix of
`todo`. -/
def Created (done todo loc : List String) : Prop :=
  ∃ pre, pre ≠ [] ∧ pre <+: todo ∧ loc = done ++ pre

/-- Directory creations and file writes issued by the program itself. -/
def Event.isFsWrite : Event → Bool
  | .mkdirAll _ => true
  | .writeFile _ _ => true
  | _ => false

/-- The tree expected after backend generation below location `base` in an otherwise
bare filesystem: the two files, and as directories the three leaves with their
ancestors. -/
def backendTree (base : List String) (useTypeScript : Bool) (loc : List String) : Option Node :=
  if loc = base ++ ["package.json"] then some (Node.file expressPackageJSON)
  else if loc = base ++ ["src", if useTypeScript then "index.ts" else "index.js"] then
    some (Node.file sampleExpressApp)
  else if loc <+: base ++ ["src", "controllers"] ∨ loc <+: base ++ ["src", "routes"]
      ∨ loc <+: base ++ ["src", "models"] then some Node.dir
  else none

/-- The events of one successful round of the directory loop. -/
def mkdirTrace (dir : String) : List Event :=
  [Event.mkdirAll dir, Event.stdout ("Created directory: " ++ dir ++ "\n")]

/-- The events of one successful round of the file loop. -/
def writeTrace (path content : String) : List Event :=
  [Event.writeFile path content, Event.stdout ("Created file: " ++ path ++ "\n")]

/-- The line printed for a target directory that is not empty. -/
def conflictMessage (basePath : String) : Event :=
  Event.stdout ("Directory " ++ basePath ++
    " contains files that could conflict. Please use an empty directory.\n")

/-- The fatal log message when nothing exists at the target path. -/
def openMissing (basePath : String) : Event :=
  Event.fatal ("Error opening directory: " ++
    ("open " ++ basePath ++ ": no such file or directory"))

/-- The success line of frontend generation. -/
def createdMessage (basePath : String) : Event :=
  Event.stdout ("Frontend project created at: " ++ basePath ++ "\n")

/-- The command line of the external generator for a framework tag. -/
def generatorArgv (framework basePath : String) : List String :=
  ["npx", if framework = "react" then "create-react-app" else "create-next-app", basePath]

/-- The fatal log message when the external generator reports an error. -/
def generatorFailure (framework err : String) : Event :=
  Event.fatal ((if framework = "react" then "Error creating React app: "
    else "Error creating Next.js app: ") ++ err)

/-- The lines of the dependency check. -/
def checkingLine : Event := Event.stdout "Checking for Node.js...\n"

def nodeMissingLines : List Event :=
  [ Event.stdout "Node.js is not installed.\n",
    Event.stdout "Please install Node.js from https://nodejs.org/en/download/\n" ]

def nodeFoundLine : Event := Event.stdout "Node.js is installed.\n"

/-- The four prompts. -/
inductive Menu where
  | ext
  | projectType
  | frontend
  | backend
  deriving DecidableEq, Repr

/-- The integers a prompt accepts. -/
def Menu.valid : Menu → List Int
  | .ext => [1, 2]
  | .projectType => [1, 2, 3]
  | .frontend => [1, 2]
  | .backend => [1]

/-- The lines a prompt displays before it reads. -/
def Menu.prompt : Menu → List Event
  | .ext =>
    [ Event.stdout "Select project extension:\n", Event.stdout "1. TypeScript\n",
      Event.stdout "2. JavaScript\n" ]
  | .projectType =>
    [ Event.stdout "Select project type:\n", Event.stdout "1. Frontend only\n",
      Event.stdout "2. Backend only\n", Event.stdout "3. Full-stack (Frontend + Backend)\n" ]
  | .frontend =>
    [ Event.stdout "Select a frontend framework:\n", Event.stdout "1. React\n",
      Event.stdout "2. Next.js\n" ]
  | .backend =>
    [ Event.stdout "Select a backend framework:\n", Event.stdout "1. Node.js with Express\n" ]

/-- The function of the program behind each prompt. -/
def Menu.run (env : Env) : Menu → List Int → World → Outcome
  | .ext => selectProjectExt
  | .projectType => selectProjectType env
  | .frontend => selectFrontendFramework env
  | .backend => selectBackendFramework env

/-- The handler a prompt runs for a valid choice, after the prompt was displayed and the
choice read. -/
def Menu.dispatch (env : Env) : Menu → Int → List Int → World → Outcome
  | .ext, v, rest, w => .returned rest ⟨decide (v = 1), w.fs, w.trace⟩
  | .projectType, v, rest, w =>
    if v = 1 then selectFrontendFramework env rest w
    else if v = 2 then selectBackendFramework env rest w
    else (selectFrontendFramework env rest w).andThen (selectBackendFramework env)
  | .frontend, v, rest, w =>
    generateFrontendStructure env "frontend" (if v = 1 then "react" else "next") rest w
  | .backend, _, rest, w => generateBackendStructure env "backend" rest w

/-- The invalid-option line. -/
def invalidLine : Event := Event.stdout "Invalid option. Please select a valid number.\n"

/-- The events of `k` identical rounds. -/
def rounds : Nat → List Event → List Event
  | 0, _ => []
  | k + 1, r => r ++ rounds k r

/-- The first line of the backend prompt. -/
def backendHeader : Event := Event.stdout "Select a backend framework:\n"

/-- Events the frontend step may produce: no directory creation, no file write, no
backend prompt. -/
def FrontEv (e : Event) : Prop :=
  e.isFsWrite = false ∧ e ≠ backendHeader

/-- Events a run may produce when the extension flag is `useTypeScript`: a file write
goes to backend/package.json or to the backend index file of that extension. -/
def BackEv (useTypeScript : Bool) (e : Event) : Prop :=
  ∀ p c, e = Event.writeFile p c →
    p = Join ["backend", "package.json"] ∨
    p = Join ["backend", "src", "index" ++ backendExt useTypeScript]

/-- The outcome keeps the extension flag and extends the trace by allowed events
only. -/
def Extends (allowed : Event → Prop) (w : World) (o : Outcome) : Prop :=
  o.world.useTypeScript = w.useTypeScript ∧
    ∃ nt, o.world.trace = w.trace ++ nt ∧ ∀ e ∈ nt, allowed e

/-- The frontend step produces frontend events only, and when it returns, the last two
are the successful run of the generator and the success line. -/
def FrontShape (w : World) (o : Outcome) : Prop :=
  Extends FrontEv w o ∧
    ∀ s w2, o = Outcome.returned s w2 →
      ∃ pre argv, w2.trace = w.trace ++ pre ++ [Event.exec argv true, createdMessage "frontend"]

/-! ## JSON documents (RFC 8259) -/

inductive JSON where
  | null
  | bool (b : Bool)
  | num (lexeme : String)
  | str (s : String)
  | arr (items : List JSON)
  | obj (members : List (String × JSON))

def skipWs : List Char → List Char
  | c :: cs => if c = ' ' ∨ c = '\t' ∨ c = '\n' ∨ c = '\r' then skipWs cs else c :: cs
  | [] => []

def hexVal (c : Char) : Option Nat :=
  if '0' ≤ c ∧ c ≤ '9' then some (c.toNat - '0'.toNat)
  else if 'a' ≤ c ∧ c ≤ 'f' then some (c.toNat - 'a'.toNat + 10)
  else if 'A' ≤ c ∧ c ≤ 'F' then some (c.toNat - 'A'.toNat + 10)
  else none

/-- Reads the body of a string after its opening quote, up to and including the closing
quote; `acc` holds the decoded characters so far, in reverse. -/
def readString : List Char → List Char → Option (String × List Char)
  | [], _ => none
  | '"' :: rest, acc => some (String.mk acc.reverse, rest)
  | '\\' :: 'u' :: a :: b :: c :: d :: rest, acc =>
    match hexVal a, hexVal b, hexVal c, hexVal d with
    | some x, some y, some z, some w =>
      readString rest (Char.ofNat (((x * 16 + y) * 16 + z) * 16 + w) :: acc)
    | _, _, _, _ => none
  | '\\' :: e :: rest, acc =>
    if e = '"' then readString rest ('"' :: acc)
    else if e = '\\' then readString rest ('\\' :: acc)
    else if e = '/' then readString rest ('/' :: acc)
    else if e = 'b' then readString rest (Char.ofNat 8 :: acc)
    else if e = 'f' then readString rest (Char.ofNat 12 :: acc)
    else if e = 'n' then readString rest ('\n' :: acc)
    else if e = 'r' then readString rest ('\r' :: acc)
    else if e = 't' then readString rest ('\t' :: acc)
    else none
  | c :: rest, acc =>
    if c.toNat < 32 ∨ c = '\\' then none else readString rest (c :: acc)

def takeDigits : List Char → List Char × List Char
  | c :: cs =>
    if c.isDigit then
      let r := takeDigits cs
      (c :: r.1, r.2)
    else ([], c :: cs)
  | [] => ([], [])

/-- Reads a number lexeme: optional minus, integer part without a superfluous leading
zero, optional fraction, optional exponent. -/
def readNumber (cs : List Char) : Option (String × List Char) :=
  let (sign, cs) := match cs with
    | '-' :: rest => (['-'], rest)
    | _ => ([], cs)
  let (int, cs) := takeDigits cs
  if int = [] ∨ (int.length > 1 ∧ int.head? = some '0') then none
  else
    let fracPart : Option (List Char × List Char) := match cs with
      | '.' :: rest =>
        let (f, rest) := takeDigits rest
        if f = [] then none else some ('.' :: f, rest)
      | _ => some ([], cs)
    match fracPart with
    | none => none
    | some (frac, cs) =>
      let expPart : Option (List Char × List Char) := match cs with
        | e :: rest =>
          if e = 'e' ∨ e = 'E' then
            let (s, rest) := match rest with
              | '+' :: r => (['+'], r)
              | '-' :: r => (['-'], r)
              | _ => ([], rest)
            let (d, rest) := takeDigits rest
            if d = [] then none else some (e :: s ++ d, rest)
          else some ([], cs)
        | [] => some ([], cs)
      match expPart with
      | none => none
      | some (ex, cs) => some (String.mk (sign ++ int ++ frac ++ ex), cs)

mutual
def parseValue : Nat → List Char → Option (JSON × List Char)
  | 0, _ => none
  | fuel + 1, cs =>
    match skipWs cs with
    | '{' :: rest =>
      match skipWs rest with
      | '}' :: rest => some (JSON.obj [], rest)
      | rest =>
        match parseMembers fuel rest with
        | some (ms, rest) => some (JSON.obj ms, rest)
        | none => none
    | '[' :: rest =>
      match skipWs rest with
      | ']' :: rest => some (JSON.arr [], rest)
      | rest =>
        match parseElements fuel rest with
        | some (xs, rest) => some (JSON.arr xs, rest)
        | none => none
    | '"' :: rest =>
      match readString rest [] with
      | some (s, rest) => some (JSON.str s, rest)
      | none => none
    | 't' :: 'r' :: 'u' :: 'e' :: rest => some (JSON.bool true, rest)
    | 'f' :: 'a' :: 'l' :: 's' :: 'e' :: rest => some (JSON.bool false, rest)
    | 'n' :: 'u' :: 'l' :: 'l' :: rest => some (JSON.null, rest)
    | other =>
      match readNumber other with
      | some (n, rest) => some (JSON.num n, rest)
      | none => none

def parseMembers : Nat → List Char → Option (List (String × JSON) × List Char)
  | 0, _ => none
  | fuel + 1, cs =>
    match skipWs cs with
    | '"' :: rest =>
      match readString rest [] with
      | none => none
      | some (key, rest) =>
        match skipWs rest with
        | ':' :: rest =>
          match parseValue fuel rest with
          | none => none
          | some (v, rest) =>
            match skipWs rest with
            | ',' :: rest =>
              match parseMembers fuel rest with
              | some (ms, rest) => some ((key, v) :: ms, rest)
              | none => none
            | '}' :: rest => some ([(key, v)], rest)
            | _ => none
        | _ => none
    | _ => none

def parseElements : Nat → List Char → Option (List JSON × List Char)
  | 0, _ => none
  | fuel + 1, cs =>
    match parseValue fuel cs with
    | none => none
    | some (v, rest) =>
      match skipWs rest with
      | ',' :: rest =>
        match parseElements fuel rest with
        | some (xs, rest) => some (v :: xs, rest)
        | none => none
      | ']' :: rest => some ([v], rest)
      | _ => none
end

/-- Parses a complete JSON text: one value, surrounded by optional whitespace. Every
step consumes input, so the length of the text bounds the recursion depth. -/
def parseJSON (text : String) : Option JSON :=
  match parseValue (text.length + 1) text.data with
  | some (v, rest) => if skipWs rest = [] then some v else none
  | none => none
theorem splitSlash_ne_nil (l : List Char) : splitSlash l ≠ [] := by
  cases l with
  | nil => simp [splitSlash]
  | cons c cs =>
    simp only [splitSlash]
    split
    · simp
    · split <;> simp

theorem splitSlash_noSlash (a : List Char) (h : '/' ∉ a) : splitSlash a = [a] := by
  induction a with
  | nil => rfl
  | cons c cs ih =>
    simp only [List.mem_cons, not_or] at h
    have hc : c ≠ '/' := fun e => h.1 e.symm
    simp [splitSlash, hc, ih h.2]

theorem splitSlash_append_slash (a b : List Char) :
    splitSlash (a ++ '/' :: b) = splitSlash a ++ splitSlash b := by
  induction a with
  | nil => simp [splitSlash]
  | cons c cs ih =>
    by_cases hc : c = '/'
    · simp [splitSlash, hc, ih]
    · simp only [List.cons_append, splitSlash, hc, if_false, ih]
      cases h : splitSlash cs with
      | nil => exact absurd h (splitSlash_ne_nil cs)
      | cons x xs => simp [ih, h]

theorem splitSlash_mem_noSlash (l x : List Char) (h : x ∈ splitSlash l) : '/' ∉ x := by
  induction l generalizing x with
  | nil => simp [splitSlash] at h; simp [h]
  | cons c cs ih =>
    by_cases hc : c = '/'
    · simp only [splitSlash, hc, if_true, List.mem_cons] at h
      rcases h with h | h
      · simp [h]
      · exact ih x h
    · simp only [splitSlash, hc, if_false] at h
      cases hs : splitSlash cs with
      | nil => exact absurd hs (splitSlash_ne_nil cs)
      | cons y ys =>
        rw [hs] at h
        simp only [List.mem_cons] at h
        rcases h with h | h
        · subst h
          have := ih y (by simp [hs])
          simp only [List.mem_cons, not_or]
          exact ⟨fun e => hc e.symm, this⟩
        · exact ih x (by simp [hs, h])

theorem splitPath_mem_noSlash (p x : String) (h : x ∈ splitPath p) : '/' ∉ x.data := by
  simp only [splitPath, List.mem_map] at h
  obtain ⟨y, hy, rfl⟩ := h
  exact splitSlash_mem_noSlash _ _ hy

theorem splitPath_noSlash (a : String) (h : '/' ∉ a.data) : splitPath a = [a] := by
  simp [splitPath, splitSlash_noSlash _ h]

theorem splitPath_append_slash (a b : String) :
    splitPath (a ++ "/" ++ b) = splitPath a ++ splitPath b := by
  have : (a ++ "/" ++ b).data = a.data ++ '/' :: b.data := by
    simp [String.data_append]
  simp [splitPath, this, splitSlash_append_slash]

theorem splitPath_joinSlash (st : List String) (hne : st ≠ [])
    (h : ∀ x ∈ st, '/' ∉ x.data) : splitPath (joinSlash st) = st := by
  induction st with
  | nil => exact absurd rfl hne
  | cons a rest ih =>
    cases rest with
    | nil => simpa [joinSlash] using splitPath_noSlash a (h a (by simp))
    | cons b rest =>
      simp only [joinSlash]
      rw [splitPath_append_slash, splitPath_noSlash a (h a (by simp)),
        ih (by simp) (fun x hx => h x (List.mem_cons_of_mem _ hx))]
      rfl

theorem walk_append (cur xs ys : List String) :
    walk cur (xs ++ ys) = walk (walk cur xs) ys := by
  induction xs generalizing cur with
  | nil => rfl
  | cons c cs ih =>
    simp only [List.cons_append, walk]
    split
    · exact ih _
    · split <;> exact ih _

theorem walk_names (cur names : List String) (h : ∀ x ∈ names, IsName x) :
    walk cur names = cur ++ names := by
  induction names generalizing cur with
  | nil => simp [walk]
  | cons c cs ih =>
    obtain ⟨h1, h2, h3, _⟩ := h c (by simp)
    simp [walk, h1, h2, h3, ih (cur ++ [c]) (fun x hx => h x (List.mem_cons_of_mem _ hx))]

theorem cleanStep_inv (r : Bool) (st : List String) (c : String)
    (hst : ∀ x ∈ st, x ≠ "" ∧ x ≠ "." ∧ '/' ∉ x.data) (hc : '/' ∉ c.data) :
    ∀ x ∈ cleanStep r st c, x ≠ "" ∧ x ≠ "." ∧ '/' ∉ x.data := by
  have hdd : (".." : String) ≠ "" ∧ (".." : String) ≠ "." ∧ '/' ∉ ("..": String).data := by decide
  unfold cleanStep
  split
  · exact hst
  · rename_i h1
    simp only [not_or] at h1
    split
    · split
      · split
        · intro x hx
          rcases List.mem_append.1 hx with hx | hx
          · exact hst x hx
          · simp only [List.mem_singleton] at hx; subst hx; exact hdd
        · intro x hx
          exact hst x (List.mem_of_mem_dropLast hx)
      · split
        · simp
        · intro x hx
          simp only [List.mem_singleton] at hx; subst hx; exact hdd
    · intro x hx
      rcases List.mem_append.1 hx with hx | hx
      · exact hst x hx
      · simp only [List.mem_singleton] at hx; subst hx; exact ⟨h1.1, h1.2, hc⟩

theorem cleanStep_walk (r : Bool) (a st : List String) (c : String)
    (hr : r = true → a = [])
    (hst : ∀ x ∈ st, x ≠ "" ∧ x ≠ "." ∧ '/' ∉ x.data) :
    walk a (cleanStep r st c) = walk (walk a st) [c] := by
  unfold cleanStep
  by_cases h1 : c = "" ∨ c = "."
  · simp [h1, walk]
  · by_cases h2 : c = ".."
    · subst h2
      simp only [h1, if_false, if_true]
      rcases List.eq_nil_or_concat st with hnil | ⟨st', n, rfl⟩
      · subst hnil
        cases r with
        | true => simp [walk, hr rfl]
        | false => simp [walk]
      · have hlast : (st' ++ [n]).getLast? = some n := by simp
        simp only [List.concat_eq_append] at hst ⊢
        simp only [hlast]
        by_cases h3 : n = ".."
        · simp only [h3, if_true]
          rw [walk_append]
        · have hn := hst n (by simp)
          simp only [h3, if_false, List.dropLast_concat]
          rw [walk_append]
          simp [walk, hn.1, hn.2.1, h3]
    · simp only [h1, h2, if_false]
      rw [walk_append]

theorem foldl_cleanStep_inv (r : Bool) (cs st : List String)
    (hst : ∀ x ∈ st, x ≠ "" ∧ x ≠ "." ∧ '/' ∉ x.data) (hcs : ∀ c ∈ cs, '/' ∉ c.data) :
    ∀ x ∈ cs.foldl (cleanStep r) st, x ≠ "" ∧ x ≠ "." ∧ '/' ∉ x.data := by
  induction cs generalizing st with
  | nil => simpa using hst
  | cons c cs ih =>
    simp only [List.foldl_cons]
    exact ih _ (cleanStep_inv r st c hst (hcs c (by simp)))
      (fun x hx => hcs x (List.mem_cons_of_mem _ hx))

theorem foldl_cleanStep_walk (r : Bool) (a cs st : List String)
    (hr : r = true → a = [])
    (hst : ∀ x ∈ st, x ≠ "" ∧ x ≠ "." ∧ '/' ∉ x.data) (hcs : ∀ c ∈ cs, '/' ∉ c.data) :
    walk a (cs.foldl (cleanStep r) st) = walk (walk a st) cs := by
  induction cs generalizing st with
  | nil => simp [walk]
  | cons c cs ih =>
    simp only [List.foldl_cons]
    rw [ih _ (cleanStep_inv r st c hst (hcs c (by simp)))
      (fun x hx => hcs x (List.mem_cons_of_mem _ hx)), cleanStep_walk r a st c hr hst]
    simp only [walk]
    split
    · rfl
    · split <;> rfl

theorem isRooted_of_noSlash (a : String) (h : '/' ∉ a.data) : isRooted a = false := by
  unfold isRooted
  cases hd : a.data with
  | nil => rfl
  | cons c cs =>
    rw [hd] at h
    simp only [List.mem_cons, not_or] at h
    simp only [beq_eq_false_iff_ne, ne_eq]
    exact fun e => h.1 e.symm

theorem isRooted_append (a b : String) (h : a ≠ "") : isRooted (a ++ b) = isRooted a := by
  unfold isRooted
  rw [String.data_append]
  cases hd : a.data with
  | nil => exact absurd (String.ext hd) h
  | cons c cs => rfl

theorem isRooted_joinSlash (a : String) (rest : List String) (h : a ≠ "") :
    isRooted (joinSlash (a :: rest)) = isRooted a := by
  cases rest with
  | nil => rfl
  | cons b rest =>
    simp only [joinSlash]
    rw [String.append_assoc, isRooted_append _ _ h]

/-- Cleaning a path does not change the location it denotes. -/
theorem resolve_Clean (cwd : List String) (p : String) :
    resolve cwd (Clean p) = resolve cwd p := by
  by_cases hp : p = ""
  · subst hp; rfl
  · have hinv := foldl_cleanStep_inv (isRooted p) (splitPath p) [] (by simp)
      (fun c hc => splitPath_mem_noSlash p c hc)
    cases hr : isRooted p with
    | true =>
      have hw := foldl_cleanStep_walk true [] (splitPath p) [] (fun _ => rfl) (by simp)
        (fun c hc => splitPath_mem_noSlash p c hc)
      rw [hr] at hinv
      simp only [Clean, hp, if_false, hr, if_true, resolve]
      have h1 : isRooted ("/" ++ joinSlash (List.foldl (cleanStep true) [] (splitPath p))) = true := by
        rw [isRooted_append _ _ (by decide)]; rfl
      have h0 : ("/" : String) = "" ++ "/" := by decide
      rw [h1, h0, splitPath_append_slash]
      simp only [if_true]
      rw [walk_append]
      have h2 : walk [] (splitPath "") = [] := by decide
      rw [h2]
      by_cases hs : List.foldl (cleanStep true) [] (splitPath p) = []
      · rw [hs] at hw ⊢
        simp only [walk] at hw
        rw [← hw]; decide
      · rw [splitPath_joinSlash _ hs (fun x hx => (hinv x hx).2.2), hw]; rfl
    | false =>
      have hw := foldl_cleanStep_walk false cwd (splitPath p) [] (by simp) (by simp)
        (fun c hc => splitPath_mem_noSlash p c hc)
      rw [hr] at hinv
      simp only [Clean, hp, if_false, hr, resolve, Bool.false_eq_true]
      by_cases hs : List.foldl (cleanStep false) [] (splitPath p) = []
      · rw [hs] at hw
        simp only [walk] at hw
        simp only [hs, if_true]
        rw [← hw]
        simp [isRooted, splitPath, splitSlash, walk]
      · simp only [hs, if_false]
        obtain ⟨a, rest, hst⟩ := List.exists_cons_of_ne_nil hs
        have ha := hinv a (by simp [hst])
        have : isRooted (joinSlash (List.foldl (cleanStep false) [] (splitPath p))) = false := by
          rw [hst, isRooted_joinSlash _ _ ha.1]
          exact isRooted_of_noSlash a ha.2.2
        rw [this, splitPath_joinSlash _ hs (fun x hx => (hinv x hx).2.2)]
        simpa [walk] using hw

/-- Joining a base path with regular names denotes the base location extended by them. -/
theorem resolve_Join (cwd : List String) (base : String) (n : String) (names : List String)
    (h : ∀ x ∈ n :: names, IsName x) :
    resolve cwd (Join (base :: n :: names)) = resolve cwd base ++ n :: names := by
  have hn := h n (by simp)
  have hsl : ∀ x ∈ n :: names, '/' ∉ x.data := fun x hx => (h x hx).2.2.2
  by_cases hb : base = ""
  · subst hb
    have : Join ("" :: n :: names) = Clean (joinSlash (n :: names)) := by
      have e : (n == "") = false := by simp [hn.1]
      simp [Join, List.dropWhile, e]
    rw [this, resolve_Clean]
    simp only [resolve]
    rw [isRooted_joinSlash _ _ hn.1, isRooted_of_noSlash n hn.2.2.2,
      splitPath_joinSlash _ (by simp) hsl, walk_names _ _ h]
    simp [isRooted, splitPath, splitSlash, walk]
  · have : Join (base :: n :: names) = Clean (joinSlash (base :: n :: names)) := by
      have e : (base == "") = false := by simp [hb]
      simp [Join, List.dropWhile, e]
    rw [this, resolve_Clean]
    simp only [resolve, joinSlash]
    have e : isRooted (base ++ "/" ++ joinSlash (n :: names)) = isRooted base := by
      rw [String.append_assoc, isRooted_append _ _ hb]
    simp only [e]
    rw [splitPath_append_slash, splitPath_joinSlash _ (by simp) hsl, walk_append,
      walk_names _ _ h]


theorem stat_insert (fs : FS) (k loc : List String) (n : Node) (hk : k ≠ []) :
    (fs.insert k n).stat loc = if loc = k then some n else fs.stat loc := by
  unfold FS.stat FS.insert
  by_cases h0 : loc = []
  · subst h0
    simp [hk.symm]
  · by_cases h1 : k = loc
    · subst h1; simp [lookupNode, h0]
    · have h2 : ¬ loc = k := fun e => h1 e.symm
      simp [lookupNode, h0, h1, h2]

theorem created_cons (done rest loc : List String) (n : String) :
    Created done (n :: rest) loc ↔ loc = done ++ [n] ∨ Created (done ++ [n]) rest loc := by
  constructor
  · rintro ⟨pre, hne, hpre, rfl⟩
    cases pre with
    | nil => exact absurd rfl hne
    | cons p ps =>
      obtain ⟨rfl, hps⟩ := List.cons_prefix_cons.1 hpre
      by_cases h : ps = []
      · left; simp [h]
      · right; exact ⟨ps, h, hps, by simp⟩
  · rintro (rfl | ⟨pre, hne, hpre, rfl⟩)
    · exact ⟨[n], by simp, by simp [List.cons_prefix_cons], rfl⟩
    · exact ⟨n :: pre, by simp, List.cons_prefix_cons.2 ⟨rfl, hpre⟩, by simp⟩

theorem not_created_self (cur rest : List String) : ¬ Created cur rest cur := by
  rintro ⟨pre, hne, _, h⟩
  have := congrArg List.length h
  simp only [List.length_append] at this
  exact hne (List.length_eq_zero.1 (by omega))

theorem created_nil_iff (target loc : List String) :
    Created [] target loc ↔ loc ≠ [] ∧ loc <+: target := by
  constructor
  · rintro ⟨pre, hne, hpre, rfl⟩
    simpa using ⟨hne, hpre⟩
  · rintro ⟨hne, hpre⟩
    exact ⟨loc, hne, hpre, by simp⟩

theorem mkdirFrom_ok (path : String) (todo : List String) :
    ∀ (fs : FS) (done : List String),
      (∀ loc, Created done todo loc → ∀ c, fs.stat loc ≠ some (Node.file c)) →
      ∃ fs2, mkdirFrom path fs done todo = .ok fs2 ∧ fs2.cwd = fs.cwd ∧
        (∀ loc, Created done todo loc → fs2.stat loc = some Node.dir) ∧
        (∀ loc, ¬ Created done todo loc → fs2.stat loc = fs.stat loc) := by
  induction todo with
  | nil =>
    intro fs done _
    refine ⟨fs, rfl, rfl, ?_, fun _ _ => rfl⟩
    rintro loc ⟨pre, hne, hpre, _⟩
    exact absurd (List.prefix_nil.1 hpre) hne
  | cons n rest ih =>
    intro fs done hfile
    have hcur : Created done (n :: rest) (done ++ [n]) := (created_cons _ _ _ _).2 (Or.inl rfl)
    have hne : done ++ [n] ≠ [] := by simp
    cases hs : fs.stat (done ++ [n]) with
    | none =>
      have hfile2 : ∀ loc, Created (done ++ [n]) rest loc →
          ∀ c, (fs.insert (done ++ [n]) Node.dir).stat loc ≠ some (Node.file c) := by
        intro loc hc c
        rw [stat_insert _ _ _ _ hne]
        split
        · simp
        · exact hfile loc ((created_cons _ _ _ _).2 (Or.inr hc)) c
      obtain ⟨fs2, h1, h2, h3, h4⟩ := ih (fs.insert (done ++ [n]) Node.dir) (done ++ [n]) hfile2
      refine ⟨fs2, ?_, h2, ?_, ?_⟩
      · simp only [mkdirFrom, hs]; exact h1
      · intro loc hc
        rcases (created_cons _ _ _ _).1 hc with rfl | hc2
        · rw [h4 _ (not_created_self _ _), stat_insert _ _ _ _ hne]; simp
        · exact h3 loc hc2
      · intro loc hc
        have hc1 : loc ≠ done ++ [n] := fun e => hc ((created_cons _ _ _ _).2 (Or.inl e))
        have hc2 : ¬ Created (done ++ [n]) rest loc :=
          fun e => hc ((created_cons _ _ _ _).2 (Or.inr e))
        rw [h4 loc hc2, stat_insert _ _ _ _ hne]; simp [hc1]
    | some node =>
      cases node with
      | file c => exact absurd hs (hfile _ hcur c)
      | dir =>
        have hfile2 : ∀ loc, Created (done ++ [n]) rest loc →
            ∀ c, fs.stat loc ≠ some (Node.file c) :=
          fun loc hc c => hfile loc ((created_cons _ _ _ _).2 (Or.inr hc)) c
        obtain ⟨fs2, h1, h2, h3, h4⟩ := ih fs (done ++ [n]) hfile2
        refine ⟨fs2, ?_, h2, ?_, ?_⟩
        · simp only [mkdirFrom, hs]; exact h1
        · intro loc hc
          rcases (created_cons _ _ _ _).1 hc with rfl | hc2
          · rw [h4 _ (not_created_self _ _), hs]
          · exact h3 loc hc2
        · intro loc hc
          exact h4 loc (fun e => hc ((created_cons _ _ _ _).2 (Or.inr e)))

/-- MkdirAll succeeds unless a regular file lies on the way, and afterwards every
non-root prefix of the target is a directory while nothing else has changed. -/
theorem mkdirAll_ok (fs : FS) (path : String) (hp : path ≠ "")
    (hfile : ∀ loc, loc <+: resolve fs.cwd path → ∀ c, fs.stat loc ≠ some (Node.file c)) :
    ∃ fs2, fs.mkdirAll path = .ok fs2 ∧ fs2.cwd = fs.cwd ∧
      ∀ loc, fs2.stat loc =
        if loc <+: resolve fs.cwd path then some Node.dir else fs.stat loc := by
  obtain ⟨fs2, h1, h2, h3, h4⟩ := mkdirFrom_ok path (resolve fs.cwd path) fs []
    (fun loc hc c => hfile loc ((created_nil_iff _ _).1 hc).2 c)
  refine ⟨fs2, by simp [FS.mkdirAll, hp, h1], h2, ?_⟩
  intro loc
  by_cases h0 : loc = []
  · subst h0
    simp [FS.stat]
  · by_cases hpre : loc <+: resolve fs.cwd path
    · simp only [hpre, if_true]
      exact h3 loc ((created_nil_iff _ _).2 ⟨h0, hpre⟩)
    · simp only [hpre, if_false]
      exact h4 loc (fun hc => hpre ((created_nil_iff _ _).1 hc).2)

theorem writeFile_ok (fs : FS) (path content : String) (hp : path ≠ "")
    (hnd : fs.stat (resolve fs.cwd path) ≠ some Node.dir)
    (hpar : fs.stat (resolve fs.cwd path).dropLast = some Node.dir) :
    fs.writeFile path content = .ok (fs.insert (resolve fs.cwd path) (Node.file content)) := by
  unfold FS.writeFile
  simp only [hp, if_false]
  cases hs : fs.stat (resolve fs.cwd path) with
  | none => simp [hpar]
  | some node =>
    cases node with
    | dir => exact absurd hs hnd
    | file c => simp [hpar]

theorem perm_pair {α : Type} (a b : α) (l : List α) (h : l.Perm [a, b]) :
    l = [a, b] ∨ l = [b, a] := by
  have hl := h.length_eq
  match l, hl with
  | [x, y], _ =>
    have hx : x ∈ [a, b] := h.subset (by simp)
    have hy : y ∈ [a, b] := h.subset (by simp)
    have ha : a ∈ [x, y] := h.symm.subset (by simp)
    have hb : b ∈ [x, y] := h.symm.subset (by simp)
    simp only [List.mem_cons, List.mem_singleton, List.not_mem_nil, or_false] at hx hy ha hb
    by_cases hab : a = b
    · subst hab
      rcases hx with rfl | rfl <;> rcases hy with rfl | rfl <;> simp
    · rcases hx with rfl | rfl
      · rcases hb with hb | hb
        · exact absurd hb.symm hab
        · subst hb; simp
      · rcases ha with ha | ha
        · exact absurd ha hab
        · subst ha; simp

theorem join_ne_empty (base n : String) (names : List String)
    (h : ∀ x ∈ n :: names, IsName x) : Join (base :: n :: names) ≠ "" := by
  intro e
  have h1 := resolve_Join [] base n names h
  rw [e] at h1
  have h2 : resolve [] "" = [] := by decide
  rw [h2] at h1
  exact absurd h1.symm (by simp)

theorem resolve_srcChild (cwd : List String) (base x : String) (hx : IsName x) :
    resolve cwd (Join [base, "src", x]) = resolve cwd base ++ ["src", x] := by
  apply resolve_Join
  intro y hy
  simp only [List.mem_cons, List.mem_singleton, List.not_mem_nil, or_false] at hy
  rcases hy with rfl | rfl
  · decide
  · exact hx

theorem resolve_pkg (cwd : List String) (base : String) :
    resolve cwd (Join [base, "package.json"]) = resolve cwd base ++ ["package.json"] := by
  apply resolve_Join
  intro y hy
  simp only [List.mem_singleton, List.mem_cons, List.not_mem_nil, or_false] at hy
  subst hy
  decide

theorem indexName_eq (ts : Bool) :
    "index" ++ backendExt ts = if ts = true then "index.ts" else "index.js" := by
  cases ts <;> decide

theorem isName_index (ts : Bool) : IsName ("index" ++ backendExt ts) := by
  cases ts <;> decide

theorem srcChild_ne_empty (base x : String) (hx : IsName x) : Join [base, "src", x] ≠ "" := by
  apply join_ne_empty
  intro y hy
  simp only [List.mem_cons, List.mem_singleton, List.not_mem_nil, or_false] at hy
  rcases hy with rfl | rfl
  · decide
  · exact hx

theorem pkg_ne_empty (base : String) : Join [base, "package.json"] ≠ "" := by
  apply join_ne_empty
  intro y hy
  simp only [List.mem_singleton, List.mem_cons, List.not_mem_nil, or_false] at hy
  subst hy
  decide

theorem index_ne_pkg (base : String) (ts : Bool) :
    Join [base, "src", "index" ++ backendExt ts] ≠ Join [base, "package.json"] := by
  intro e
  have h := congrArg (resolve []) e
  rw [resolve_srcChild _ _ _ (isName_index ts), resolve_pkg] at h
  have := congrArg List.length h
  simp at this

theorem backendFiles_eq (base : String) (ts : Bool) :
    backendFiles base ts =
      [ (Join [base, "src", "index" ++ backendExt ts], sampleExpressApp),
        (Join [base, "package.json"], expressPackageJSON) ] := by
  simp [backendFiles, mapLit, mapInsert, index_ne_pkg base ts]

theorem stat_bare (cwd loc : List String) :
    FS.stat { cwd := cwd, nodes := [] } loc = if loc = [] then some Node.dir else none := by
  simp [FS.stat, lookupNode]

theorem mkdirEach_step (dir : String) (rest : List String) (w : World) (fs2 : FS)
    (h : w.fs.mkdirAll dir = .ok fs2) :
    mkdirEach (dir :: rest) w =
      mkdirEach rest ⟨w.useTypeScript, fs2, w.trace ++ mkdirTrace dir⟩ := by
  simp [mkdirEach, h, emit, mkdirTrace]

theorem mkdirEach_backend_bare (cwd : List String) (base : String) (ts : Bool)
    (trace : List Event) :
    ∃ fs3, mkdirEach (backendDirs base) ⟨ts, { cwd := cwd, nodes := [] }, trace⟩ =
        .ok ⟨ts, fs3, trace ++ (backendDirs base).flatMap mkdirTrace⟩ ∧ fs3.cwd = cwd ∧
      ∀ loc, fs3.stat loc =
        if loc <+: resolve cwd base ++ ["src", "controllers"]
            ∨ loc <+: resolve cwd base ++ ["src", "routes"]
            ∨ loc <+: resolve cwd base ++ ["src", "models"] then some Node.dir else none := by
  have r1 := resolve_srcChild cwd base "controllers" (by decide)
  have r2 := resolve_srcChild cwd base "routes" (by decide)
  have r3 := resolve_srcChild cwd base "models" (by decide)
  obtain ⟨fs1, h1, c1, s1⟩ := mkdirAll_ok { cwd := cwd, nodes := [] }
    (Join [base, "src", "controllers"]) (srcChild_ne_empty _ _ (by decide))
    (by intro loc _ c; rw [stat_bare]; split <;> simp)
  obtain ⟨fs2, h2, c2, s2⟩ := mkdirAll_ok fs1
    (Join [base, "src", "routes"]) (srcChild_ne_empty _ _ (by decide))
    (by intro loc _ c; rw [s1, stat_bare]; split <;> [simp; (split <;> simp)])
  obtain ⟨fs3, h3, c3, s3⟩ := mkdirAll_ok fs2
    (Join [base, "src", "models"]) (srcChild_ne_empty _ _ (by decide))
    (by intro loc _ c; rw [s2, s1, stat_bare]
        split <;> [simp; (split <;> [simp; (split <;> simp)])])
  simp only at c1 s1
  rw [c1] at c2 s2
  rw [c2] at c3 s3
  rw [r1] at s1
  rw [r2] at s2
  rw [r3] at s3
  refine ⟨fs3, ?_, by rw [c3], ?_⟩
  · simp only [backendDirs]
    rw [mkdirEach_step _ _ _ fs1 h1, mkdirEach_step _ _ _ fs2 h2, mkdirEach_step _ _ _ fs3 h3]
    simp [mkdirEach, List.flatMap, List.append_assoc]
  · intro loc
    rw [s3, s2, s1, stat_bare]
    by_cases a1 : loc <+: resolve cwd base ++ ["src", "controllers"] <;>
    by_cases a2 : loc <+: resolve cwd base ++ ["src", "routes"] <;>
    by_cases a3 : loc <+: resolve cwd base ++ ["src", "models"] <;>
    simp only [a1, a2, a3, if_true, if_false, or_true, true_or, or_self, or_false]
    split
    · rename_i h0
      exact absurd (h0 ▸ List.nil_prefix) a1
    · rfl

theorem writeEach_pair (fs : FS) (p1 c1 p2 c2 : String) (stdin : List Int) (ts : Bool)
    (trace : List Event) (hp1 : p1 ≠ "") (hp2 : p2 ≠ "")
    (hl1 : resolve fs.cwd p1 ≠ []) (hne : resolve fs.cwd p2 ≠ resolve fs.cwd p1)
    (hne2 : (resolve fs.cwd p2).dropLast ≠ resolve fs.cwd p1)
    (h1nd : fs.stat (resolve fs.cwd p1) ≠ some Node.dir)
    (h1par : fs.stat (resolve fs.cwd p1).dropLast = some Node.dir)
    (h2nd : fs.stat (resolve fs.cwd p2) ≠ some Node.dir)
    (h2par : fs.stat (resolve fs.cwd p2).dropLast = some Node.dir) :
    writeEach [(p1, c1), (p2, c2)] stdin ⟨ts, fs, trace⟩ =
      .returned stdin ⟨ts,
        (fs.insert (resolve fs.cwd p1) (Node.file c1)).insert (resolve fs.cwd p2) (Node.file c2),
        trace ++ writeTrace p1 c1 ++ writeTrace p2 c2⟩ := by
  have w1 := writeFile_ok fs p1 c1 hp1 h1nd h1par
  have w2 := writeFile_ok (fs.insert (resolve fs.cwd p1) (Node.file c1)) p2 c2 hp2
    (by show (fs.insert _ _).stat (resolve fs.cwd p2) ≠ _
        rw [stat_insert _ _ _ _ hl1]; simp [hne, h2nd])
    (by show (fs.insert _ _).stat (resolve fs.cwd p2).dropLast = _
        rw [stat_insert _ _ _ _ hl1]; simp [hne2, h2par])
  simp only [writeEach, w1]
  have e : (fs.insert (resolve fs.cwd p1) (Node.file c1)).cwd = fs.cwd := rfl
  simp only [emit, w2, e, writeTrace, List.append_assoc, List.cons_append, List.nil_append]

theorem dropLast_two (b : List String) (x y : String) : (b ++ [x, y]).dropLast = b ++ [x] := by
  have : b ++ [x, y] = (b ++ [x]) ++ [y] := by simp
  rw [this, List.dropLast_concat]

theorem dropLast_one (b : List String) (x : String) : (b ++ [x]).dropLast = b :=
  List.dropLast_concat

theorem prefix_two_iff (b : List String) (x y u v : String) :
    b ++ [x, y] <+: b ++ [u, v] ↔ x = u ∧ y = v := by
  rw [List.prefix_append_right_inj]
  constructor
  · intro h
    have := List.IsPrefix.eq_of_length h (by simp)
    simpa using this
  · rintro ⟨rfl, rfl⟩
    exact List.prefix_refl _

theorem prefix_one_iff (b : List String) (x u v : String) :
    b ++ [x] <+: b ++ [u, v] ↔ x = u := by
  rw [List.prefix_append_right_inj]
  constructor
  · intro h
    obtain ⟨t, ht⟩ := h
    simp at ht
    exact ht.1
  · rintro rfl
    exact ⟨[v], rfl⟩

theorem backendTree_bare_write (fs3 : FS) (b : List String) (ts : Bool)
    (s3 : ∀ loc, fs3.stat loc =
        if loc <+: b ++ ["src", "controllers"] ∨ loc <+: b ++ ["src", "routes"]
            ∨ loc <+: b ++ ["src", "models"] then some Node.dir else none) :
    fs3.stat (b ++ ["src", "index" ++ backendExt ts]) = none ∧
    fs3.stat (b ++ ["package.json"]) = none ∧
    fs3.stat (b ++ ["src"]) = some Node.dir ∧
    fs3.stat b = some Node.dir := by
  refine ⟨?_, ?_, ?_, ?_⟩
  · rw [s3]
    cases ts <;> simp [prefix_two_iff, backendExt]
  · rw [s3]
    simp [prefix_one_iff]
  · rw [s3]
    simp [prefix_one_iff]
  · rw [s3]
    simp

theorem backend_bare_aux (env : Env) (cwd : List String) (basePath : String)
    (ts : Bool) (stdin : List Int) (trace : List Event) :
    ∃ w, generateBackendStructure env basePath stdin
          ⟨ts, { cwd := cwd, nodes := [] }, trace⟩ = .returned stdin w ∧
      w.useTypeScript = ts ∧
      (∀ loc, w.fs.stat loc = backendTree (resolve cwd basePath) ts loc) ∧
      w.fs.stat (resolve cwd (Join [basePath, "src", "index" ++ backendExt (!ts)])) = none ∧
      (w.trace = trace ++ (backendDirs basePath).flatMap mkdirTrace
          ++ writeTrace (Join [basePath, "src", "index" ++ backendExt ts]) sampleExpressApp
          ++ writeTrace (Join [basePath, "package.json"]) expressPackageJSON
        ∨ w.trace = trace ++ (backendDirs basePath).flatMap mkdirTrace
          ++ writeTrace (Join [basePath, "package.json"]) expressPackageJSON
          ++ writeTrace (Join [basePath, "src", "index" ++ backendExt ts]) sampleExpressApp) := by
  obtain ⟨fs3, hmk, c3, s3⟩ := mkdirEach_backend_bare cwd basePath ts trace
  obtain ⟨t1, t2, t3, t4⟩ := backendTree_bare_write fs3 (resolve cwd basePath) ts s3
  have ri := resolve_srcChild cwd basePath _ (isName_index ts)
  have rp := resolve_pkg cwd basePath
  have hother : backendTree (resolve cwd basePath) ts
      (resolve cwd (Join [basePath, "src", "index" ++ backendExt (!ts)])) = none := by
    rw [resolve_srcChild cwd basePath _ (isName_index (!ts))]
    cases ts <;> simp [backendTree, backendExt, prefix_two_iff]
  have hfinal : ∀ loc,
      (if loc = resolve cwd basePath ++ ["package.json"] then some (Node.file expressPackageJSON)
        else if loc = resolve cwd basePath ++ ["src", "index" ++ backendExt ts] then
          some (Node.file sampleExpressApp)
        else fs3.stat loc) = backendTree (resolve cwd basePath) ts loc := by
    intro loc
    simp only [backendTree, s3, indexName_eq]
  simp only [generateBackendStructure, hmk, createFiles, backendFiles_eq]
  rcases perm_pair _ _ _ (env.rangeOrder_perm
    [ (Join [basePath, "src", "index" ++ backendExt ts], sampleExpressApp),
      (Join [basePath, "package.json"], expressPackageJSON) ]) with ho | ho
  · rw [ho, writeEach_pair fs3 _ _ _ _ stdin ts _ (srcChild_ne_empty _ _ (isName_index ts))
      (pkg_ne_empty _) (by rw [c3, ri]; simp) (by rw [c3, ri, rp]; simp)
      (by rw [c3, ri, rp, dropLast_one]; intro e; simpa using congrArg List.length e)
      (by rw [c3, ri, t1]; simp) (by rw [c3, ri, dropLast_two]; exact t3)
      (by rw [c3, rp, t2]; simp) (by rw [c3, rp, dropLast_one]; exact t4)]
    have hstat : ∀ loc, FS.stat ((fs3.insert (resolve fs3.cwd
        (Join [basePath, "src", "index" ++ backendExt ts])) (Node.file sampleExpressApp)).insert
        (resolve fs3.cwd (Join [basePath, "package.json"])) (Node.file expressPackageJSON)) loc
        = backendTree (resolve cwd basePath) ts loc := by
      intro loc
      rw [← hfinal loc, c3, ri, rp, stat_insert _ _ _ _ (by simp), stat_insert _ _ _ _ (by simp)]
    exact ⟨_, rfl, rfl, hstat, by rw [hstat]; exact hother, Or.inl rfl⟩
  · rw [ho, writeEach_pair fs3 _ _ _ _ stdin ts _ (pkg_ne_empty _)
      (srcChild_ne_empty _ _ (isName_index ts)) (by rw [c3, rp]; simp)
      (by rw [c3, ri, rp]; simp)
      (by rw [c3, ri, rp, dropLast_two]; simp)
      (by rw [c3, rp, t2]; simp) (by rw [c3, rp, dropLast_one]; exact t4)
      (by rw [c3, ri, t1]; simp) (by rw [c3, ri, dropLast_two]; exact t3)]
    have hstat : ∀ loc, FS.stat ((fs3.insert (resolve fs3.cwd
        (Join [basePath, "package.json"])) (Node.file expressPackageJSON)).insert
        (resolve fs3.cwd (Join [basePath, "src", "index" ++ backendExt ts]))
        (Node.file sampleExpressApp)) loc
        = backendTree (resolve cwd basePath) ts loc := by
      intro loc
      rw [← hfinal loc, c3, ri, rp, stat_insert _ _ _ _ (by simp), stat_insert _ _ _ _ (by simp)]
      by_cases h1 : loc = resolve cwd basePath ++ ["package.json"]
      · have h2 : ¬ loc = resolve cwd basePath ++ ["src", "index" ++ backendExt ts] := by
          rw [h1]; simp
        simp [h1]
      · simp [h1]
    exact ⟨_, rfl, rfl, hstat, by rw [hstat]; exact hother, Or.inr rfl⟩

/-- C1: on a filesystem holding nothing but the root, for every base path, working
directory and value of the extension flag, generateBackendStructure returns normally.
MkdirAll is issued for exactly src/controllers, src/routes and src/models under the base,
and WriteFile for exactly package.json and src/index.ts when the flag is set, src/index.js
when it is clear, in either iteration order of the manifest. Afterwards the three
directories exist, the only regular files are those two, the index file of the other
extension does not exist, and the only other directories are the ancestors of the three
created ones. -/
theorem generateBackendStructure_bare (env : Env) (cwd : List String) (basePath : String)
    (ts : Bool) (stdin : List Int) (trace : List Event) :
    ∃ w, generateBackendStructure env basePath stdin
          ⟨ts, { cwd := cwd, nodes := [] }, trace⟩ = .returned stdin w ∧
      w.useTypeScript = ts ∧
      (∀ loc, w.fs.stat loc = backendTree (resolve cwd basePath) ts loc) ∧
      w.fs.stat (resolve cwd (Join [basePath, "src", "controllers"])) = some Node.dir ∧
      w.fs.stat (resolve cwd (Join [basePath, "src", "routes"])) = some Node.dir ∧
      w.fs.stat (resolve cwd (Join [basePath, "src", "models"])) = some Node.dir ∧
      w.fs.stat (resolve cwd (Join [basePath, "src", if ts = true then "index.ts" else "index.js"]))
        = some (Node.file sampleExpressApp) ∧
      w.fs.stat (resolve cwd (Join [basePath, "package.json"]))
        = some (Node.file expressPackageJSON) ∧
      w.fs.stat (resolve cwd (Join [basePath, "src", if ts = true then "index.js" else "index.ts"]))
        = none ∧
      (w.trace = trace
          ++ [ Join [basePath, "src", "controllers"], Join [basePath, "src", "routes"],
               Join [basePath, "src", "models"] ].flatMap mkdirTrace
          ++ writeTrace (Join [basePath, "src", if ts = true then "index.ts" else "index.js"])
              sampleExpressApp
          ++ writeTrace (Join [basePath, "package.json"]) expressPackageJSON
        ∨ w.trace = trace
          ++ [ Join [basePath, "src", "controllers"], Join [basePath, "src", "routes"],
               Join [basePath, "src", "models"] ].flatMap mkdirTrace
          ++ writeTrace (Join [basePath, "package.json"]) expressPackageJSON
          ++ writeTrace (Join [basePath, "src", if ts = true then "index.ts" else "index.js"])
              sampleExpressApp) := by
  obtain ⟨w, h1, h2, h3, h4, h5⟩ := backend_bare_aux env cwd basePath ts stdin trace
  have e1 := indexName_eq ts
  have e2 : "index" ++ backendExt (!ts) = if ts = true then "index.js" else "index.ts" := by
    cases ts <;> decide
  rw [e2] at h4
  rw [e1] at h5
  simp only [backendDirs] at h5
  have hidx : IsName (if ts = true then "index.ts" else "index.js") := by
    cases ts <;> decide
  refine ⟨w, h1, h2, h3, ?_, ?_, ?_, ?_, ?_, h4, h5⟩
  · rw [h3, resolve_srcChild _ _ _ (by decide)]
    cases ts <;> simp [backendTree]
  · rw [h3, resolve_srcChild _ _ _ (by decide)]
    cases ts <;> simp [backendTree]
  · rw [h3, resolve_srcChild _ _ _ (by decide)]
    cases ts <;> simp [backendTree]
  · rw [h3, resolve_srcChild _ _ _ hidx]
    simp [backendTree]
  · rw [h3, resolve_pkg]
    simp [backendTree]

theorem isDirectoryEmpty_missing (basePath : String) (w : World)
    (h : basePath = "" ∨ w.fs.stat (resolve w.fs.cwd basePath) = none) :
    isDirectoryEmpty basePath w = .error (emit (openMissing basePath) w) := by
  unfold isDirectoryEmpty FS.openPath openMissing
  by_cases hb : basePath = ""
  · subst hb
    simp only [if_true]
    rfl
  · rcases h with h | h
    · exact absurd h hb
    · simp only [hb, if_false, h]

theorem isDirectoryEmpty_present (basePath : String) (w : World) (n : Node)
    (hb : basePath ≠ "") (h : w.fs.stat (resolve w.fs.cwd basePath) = some n) :
    isDirectoryEmpty basePath w =
      .ok (decide (n = Node.dir ∧ w.fs.entries (resolve w.fs.cwd basePath) = [])) := by
  unfold isDirectoryEmpty FS.openPath FS.readdirnames
  simp only [hb, if_false, h]
  cases n with
  | file c => simp
  | dir =>
    cases he : w.fs.entries (resolve w.fs.cwd basePath) with
    | nil => simp
    | cons x xs => simp

theorem resolve_name (cwd : List String) (name : String) (h : IsName name) :
    resolve cwd name = cwd ++ [name] := by
  unfold resolve
  rw [isRooted_of_noSlash name h.2.2.2, splitPath_noSlash name h.2.2.2]
  simpa using walk_names cwd [name] (by simpa using h)

/-- C3: when the target directory, named by a portable file name such as frontend,
exists and holds at least one entry, for every framework tag generateFrontendStructure
exits with status 1; the only thing it does is print the conflict message, so the
external generator is not run and the filesystem is left as it was. -/
theorem generateFrontendStructure_nonempty (env : Env) (basePath framework : String)
    (stdin : List Int) (w : World) (hname : IsPortableName basePath)
    (hdir : w.fs.stat (w.fs.cwd ++ [basePath]) = some Node.dir)
    (hne : w.fs.entries (w.fs.cwd ++ [basePath]) ≠ []) :
    generateFrontendStructure env basePath framework stdin w =
      .exited 1 stdin ⟨w.useTypeScript, w.fs, w.trace ++ [conflictMessage basePath]⟩ := by
  rw [← resolve_name w.fs.cwd basePath hname.1] at hdir hne
  simp only [generateFrontendStructure, isDirectoryEmpty_present basePath w _ hname.1.1 hdir, hne,
    and_false, decide_False, emit, conflictMessage]

theorem generateFrontendStructure_nonempty_witness :
    generateFrontendStructure (idEnv true none) "frontend" "react" [7]
        ⟨false, ⟨[], [(["frontend", "README.md"], Node.file "x"), (["frontend"], Node.dir)]⟩, []⟩ =
      .exited 1 [7]
        ⟨false, ⟨[], [(["frontend", "README.md"], Node.file "x"), (["frontend"], Node.dir)]⟩,
          [] ++ [conflictMessage "frontend"]⟩ :=
  generateFrontendStructure_nonempty (idEnv true none) "frontend" "react" [7]
    ⟨false, ⟨[], [(["frontend", "README.md"], Node.file "x"), (["frontend"], Node.dir)]⟩, []⟩
    (by decide) (by decide) (by decide)

/-- C5: for an existing empty target directory, named by a portable file name such as
frontend, and tag react or next, generateFrontendStructure runs exactly one external
command, npx create-react-app or npx create-next-app with the base path as only argument,
and issues no filesystem write of its own; when the command reports no error it prints
the success message and returns, otherwise it logs the failure and exits with status 1
without the success message. -/
theorem generateFrontendStructure_empty (env : Env) (basePath framework : String)
    (stdin : List Int) (w : World) (hname : IsPortableName basePath)
    (hdir : w.fs.stat (w.fs.cwd ++ [basePath]) = some Node.dir)
    (hempty : w.fs.entries (w.fs.cwd ++ [basePath]) = [])
    (hfw : framework = "react" ∨ framework = "next") :
    generateFrontendStructure env basePath framework stdin w =
      match (env.run (generatorArgv framework basePath) w.fs).err with
      | none =>
        .returned stdin ⟨w.useTypeScript, (env.run (generatorArgv framework basePath) w.fs).fs,
          w.trace ++ [Event.exec (generatorArgv framework basePath) true,
            createdMessage basePath]⟩
      | some err =>
        .exited 1 stdin ⟨w.useTypeScript, (env.run (generatorArgv framework basePath) w.fs).fs,
          w.trace ++ [Event.exec (generatorArgv framework basePath) false,
            generatorFailure framework err]⟩ := by
  rw [← resolve_name w.fs.cwd basePath hname.1] at hdir hempty
  have hchk := isDirectoryEmpty_present basePath w _ hname.1.1 hdir
  simp only [hempty, and_self, decide_True] at hchk
  rcases hfw with rfl | rfl
  · simp only [generateFrontendStructure, hchk, generatorArgv, if_true]
    cases (env.run ["npx", "create-react-app", basePath] w.fs).err <;>
      simp [emit, createdMessage, generatorFailure]
  · have hn : ¬ ("next" : String) = "react" := by decide
    simp only [generateFrontendStructure, hchk, generatorArgv, hn, if_false, if_true]
    cases (env.run ["npx", "create-next-app", basePath] w.fs).err <;>
      simp [emit, createdMessage, generatorFailure]

theorem generateFrontendStructure_empty_witness :
    generateFrontendStructure (idEnv true none) "frontend" "react" [4]
        ⟨true, ⟨[], [(["frontend"], Node.dir)]⟩, []⟩ =
      .returned [4] ⟨true, ⟨[], [(["frontend"], Node.dir)]⟩,
        [Event.exec ["npx", "create-react-app", "frontend"] true,
          Event.stdout "Frontend project created at: frontend\n"]⟩ :=
  generateFrontendStructure_empty (idEnv true none) "frontend" "react" [4]
    ⟨true, ⟨[], [(["frontend"], Node.dir)]⟩, []⟩ (by decide) (by decide) (by decide)
    (Or.inl rfl)

/-- C9, as stated, fails: with nothing at the path frontend and a generator that would
succeed, generateFrontendStructure exits with status 1 on the failed open; the directory
is not created and the generator is not run. -/
theorem missing_directory_counterexample :
    FS.stat FS.empty (resolve FS.empty.cwd "frontend") = none ∧
    generateFrontendStructure (idEnv true none) "frontend" "react" [] ⟨false, FS.empty, []⟩ =
      .exited 1 [] ⟨false, FS.empty,
        [Event.fatal "Error opening directory: open frontend: no such file or directory"]⟩ := by
  decide

/-- C9, amended: frontend generation never creates the target directory, named by a
portable file name such as frontend. Where nothing exists at that name the open inside
isDirectoryEmpty fails, and generateFrontendStructure logs that failure and exits with
status 1, leaving the filesystem as it was and not running the generator. For anything
that exists there the emptiness check answers true exactly when it is a directory with
zero entries: then, for tag react or next, the generator is run; otherwise
generateFrontendStructure prints the conflict message and exits with status 1 without
running it. -/
theorem generateFrontendStructure_missing (env : Env) (basePath framework : String)
    (stdin : List Int) (w : World) (hname : IsPortableName basePath) :
    (w.fs.stat (w.fs.cwd ++ [basePath]) = none →
      isDirectoryEmpty basePath w = .error (emit (openMissing basePath) w) ∧
      generateFrontendStructure env basePath framework stdin w =
        .exited 1 stdin ⟨w.useTypeScript, w.fs, w.trace ++ [openMissing basePath]⟩) ∧
    (∀ n, w.fs.stat (w.fs.cwd ++ [basePath]) = some n →
      isDirectoryEmpty basePath w =
        .ok (decide (n = Node.dir ∧ w.fs.entries (w.fs.cwd ++ [basePath]) = []))) ∧
    (w.fs.stat (w.fs.cwd ++ [basePath]) = some Node.dir →
      w.fs.entries (w.fs.cwd ++ [basePath]) = [] →
      (framework = "react" ∨ framework = "next") →
      ∃ ok tail, (generateFrontendStructure env basePath framework stdin w).world.trace =
        w.trace ++ Event.exec (generatorArgv framework basePath) ok :: tail) ∧
    (∀ n, w.fs.stat (w.fs.cwd ++ [basePath]) = some n →
      ¬ (n = Node.dir ∧ w.fs.entries (w.fs.cwd ++ [basePath]) = []) →
      generateFrontendStructure env basePath framework stdin w =
        .exited 1 stdin ⟨w.useTypeScript, w.fs, w.trace ++ [conflictMessage basePath]⟩) := by
  have hr := resolve_name w.fs.cwd basePath hname.1
  refine ⟨?_, ?_, ?_, ?_⟩
  · intro h
    rw [← hr] at h
    have hm := isDirectoryEmpty_missing basePath w (Or.inr h)
    exact ⟨hm, by simp only [generateFrontendStructure, hm, emit]⟩
  · intro n h
    rw [← hr] at h ⊢
    exact isDirectoryEmpty_present basePath w n hname.1.1 h
  · intro hdir hempty hfw
    rw [← hr] at hdir hempty
    have hchk := isDirectoryEmpty_present basePath w _ hname.1.1 hdir
    simp only [hempty, and_self, decide_True] at hchk
    rcases hfw with rfl | rfl
    · simp only [generateFrontendStructure, hchk, generatorArgv, if_true]
      cases (env.run ["npx", "create-react-app", basePath] w.fs).err with
      | none => exact ⟨true, [createdMessage basePath], by simp [emit, Outcome.world, createdMessage]⟩
      | some err =>
        exact ⟨false, [Event.fatal ("Error creating React app: " ++ err)],
          by simp [emit, Outcome.world]⟩
    · have hn : ¬ ("next" : String) = "react" := by decide
      simp only [generateFrontendStructure, hchk, generatorArgv, hn, if_false, if_true]
      cases (env.run ["npx", "create-next-app", basePath] w.fs).err with
      | none => exact ⟨true, [createdMessage basePath], by simp [emit, Outcome.world, createdMessage]⟩
      | some err =>
        exact ⟨false, [Event.fatal ("Error creating Next.js app: " ++ err)],
          by simp [emit, Outcome.world]⟩
  · intro n h hnot
    rw [← hr] at h hnot
    simp only [generateFrontendStructure, isDirectoryEmpty_present basePath w n hname.1.1 h, hnot,
      decide_False, emit, conflictMessage]

theorem generateFrontendStructure_missing_witness :
    (isDirectoryEmpty "frontend" ⟨false, FS.empty, []⟩ =
        .error (emit (openMissing "frontend") ⟨false, FS.empty, []⟩) ∧
      generateFrontendStructure (idEnv true none) "frontend" "next" [] ⟨false, FS.empty, []⟩ =
        .exited 1 [] ⟨false, FS.empty, [] ++ [openMissing "frontend"]⟩) ∧
    generateFrontendStructure (idEnv true none) "frontend" "next" []
        ⟨false, ⟨[], [(["frontend"], Node.file "x")]⟩, []⟩ =
      .exited 1 [] ⟨false, ⟨[], [(["frontend"], Node.file "x")]⟩,
        [] ++ [conflictMessage "frontend"]⟩ :=
  ⟨(generateFrontendStructure_missing (idEnv true none) "frontend" "next" []
      ⟨false, FS.empty, []⟩ (by decide)).1 (by decide),
    (generateFrontendStructure_missing (idEnv true none) "frontend" "next" []
      ⟨false, ⟨[], [(["frontend"], Node.file "x")]⟩, []⟩ (by decide)).2.2.2 (Node.file "x")
      (by decide) (by decide)⟩

/-- C6: generateCmd starts with the dependency check. When node is not on the search
path the run ends there with exit status 1: standard input is untouched, the extension
flag and the filesystem are as before, and the only events are the three printed lines.
When node is found the run goes on to the extension prompt and then the project-type
prompt. -/
theorem generateCmd_dependency (env : Env) (stdin : List Int) (w : World) :
    generateCmd env stdin w =
      if env.lookPath "node" = true then
        (selectProjectExt stdin
          ⟨w.useTypeScript, w.fs, w.trace ++ [checkingLine, nodeFoundLine]⟩).andThen
          (selectProjectType env)
      else
        .exited 1 stdin ⟨w.useTypeScript, w.fs, w.trace ++ checkingLine :: nodeMissingLines⟩ := by
  cases h : env.lookPath "node" <;>
    simp [generateCmd, checkDependencies, h, Outcome.andThen, println, emit, checkingLine,
      nodeFoundLine, nodeMissingLines]

theorem scanValue_cases (tok : Int) : scanValue tok = tok ∨ scanValue tok = 0 := by
  unfold scanValue
  split
  · exact Or.inl rfl
  · exact Or.inr rfl

theorem scanValue_small (v : Int) (h0 : 0 ≤ v) (h3 : v ≤ 3) : scanValue v = v := by
  unfold scanValue
  split
  · rfl
  · rename_i h
    have a1 : (-(2 ^ 63) : Int) ≤ 0 := by decide
    have a2 : (3 : Int) < 2 ^ 63 := by decide
    exact absurd ⟨by omega, by omega⟩ h

theorem scanValue_invalid (m : Menu) (b : Int) (hb : b ∉ m.valid) : scanValue b ∉ m.valid := by
  rcases scanValue_cases b with h | h
  · rw [h]; exact hb
  · rw [h]; cases m <;> decide

theorem invalidLine_eq : Event.stdout (invalidOption ++ "\n") = invalidLine := by
  decide

theorem run_invalid (env : Env) (m : Menu) (b : Int) (hb : b ∉ m.valid) (stdin : List Int)
    (w : World) :
    m.run env (b :: stdin) w =
      m.run env stdin ⟨w.useTypeScript, w.fs, w.trace ++ m.prompt ++ [invalidLine]⟩ := by
  have hs := scanValue_invalid m b hb
  cases m <;>
    simp only [Menu.valid, List.mem_cons, List.mem_singleton, List.not_mem_nil, or_false,
      not_or] at hs <;>
    simp [Menu.run, Menu.prompt, selectProjectExt, selectProjectType, selectFrontendFramework,
      selectBackendFramework, hs, println, emit, invalidLine_eq]

theorem run_valid (env : Env) (m : Menu) (v : Int) (hv : v ∈ m.valid) (rest : List Int)
    (w : World) :
    m.run env (v :: rest) w =
      m.dispatch env v rest ⟨w.useTypeScript, w.fs, w.trace ++ m.prompt⟩ := by
  cases m <;>
    simp only [Menu.valid, List.mem_cons, List.mem_singleton, List.not_mem_nil, or_false] at hv
  · rcases hv with rfl | rfl <;>
      simp [Menu.run, Menu.dispatch, Menu.prompt, selectProjectExt, scanValue_small, println, emit]
  · rcases hv with rfl | rfl | rfl <;>
      simp [Menu.run, Menu.dispatch, Menu.prompt, selectProjectType, scanValue_small, println,
        emit]
  · rcases hv with rfl | rfl <;>
      simp [Menu.run, Menu.dispatch, Menu.prompt, selectFrontendFramework, scanValue_small,
        println, emit]
  · subst hv
    simp [Menu.run, Menu.dispatch, Menu.prompt, selectBackendFramework, scanValue_small,
      println, emit]

theorem count_rounds (k : Nat) (r tail : List Event) (e : Event) :
    List.count e (rounds k r ++ tail) = k * List.count e r + List.count e tail := by
  induction k with
  | zero => simp [rounds]
  | succ k ih =>
    simp only [rounds, List.append_assoc, List.count_append] at ih ⊢
    rw [ih, Nat.succ_mul]
    omega

theorem run_retry (env : Env) (m : Menu) (bad : List Int) (v : Int) (rest : List Int)
    (hv : v ∈ m.valid) :
    ∀ (w : World), (∀ b ∈ bad, b ∉ m.valid) →
      m.run env (bad ++ v :: rest) w =
        m.dispatch env v rest ⟨w.useTypeScript, w.fs,
          w.trace ++ (rounds bad.length (m.prompt ++ [invalidLine]) ++ m.prompt)⟩ := by
  induction bad with
  | nil =>
    intro w _
    simpa [rounds] using run_valid env m v hv rest w
  | cons b bs ih =>
    intro w hbad
    have h1 := run_invalid env m b (hbad b (by simp)) (bs ++ v :: rest) w
    have h2 := ih ⟨w.useTypeScript, w.fs, w.trace ++ m.prompt ++ [invalidLine]⟩
      (fun x hx => hbad x (List.mem_cons_of_mem _ hx))
    rw [List.cons_append, h1, h2]
    simp [rounds, List.append_assoc]

/-- C2: for each of the four prompts, on an input of k integers outside the menu
followed by a valid integer v and any remainder, the run is k rounds of prompt and
invalid-option message, then the prompt once more, then the handler of v, started on the
remainder with the extension flag and the filesystem exactly as they were at the start;
it is the run of the same prompt on the input starting at v, from a state that differs
only by those k rounds in the trace. Hence every prompt line is shown k+1 times and the
invalid-option message k times before the handler starts, and no handler runs for an
out-of-range integer. -/
theorem prompt_retry (env : Env) (m : Menu) (bad : List Int) (v : Int) (rest : List Int)
    (w : World) (hbad : ∀ b ∈ bad, b ∉ m.valid) (hv : v ∈ m.valid) :
    m.run env (bad ++ v :: rest) w =
        m.dispatch env v rest ⟨w.useTypeScript, w.fs,
          w.trace ++ (rounds bad.length (m.prompt ++ [invalidLine]) ++ m.prompt)⟩ ∧
      m.run env (bad ++ v :: rest) w =
        m.run env (v :: rest) ⟨w.useTypeScript, w.fs,
          w.trace ++ rounds bad.length (m.prompt ++ [invalidLine])⟩ ∧
      List.count invalidLine (rounds bad.length (m.prompt ++ [invalidLine]) ++ m.prompt)
        = bad.length ∧
      ∀ e ∈ m.prompt,
        List.count e (rounds bad.length (m.prompt ++ [invalidLine]) ++ m.prompt)
          = bad.length + 1 := by
  refine ⟨?_, ?_, ?_, ?_⟩
  · exact run_retry env m bad v rest hv w hbad
  · rw [run_retry env m bad v rest hv w hbad, run_valid env m v hv rest]
    simp [List.append_assoc]
  · rw [count_rounds]
    cases m <;> simp [Menu.prompt, invalidLine, List.count_cons]
  · intro e he
    rw [count_rounds]
    cases m <;>
      simp only [Menu.prompt, List.mem_cons, List.mem_singleton, List.not_mem_nil, or_false] at he
    all_goals
      rcases he with rfl | rfl | rfl | rfl | rfl <;>
        simp [Menu.prompt, invalidLine, List.count_cons]

theorem prompt_retry_witness :
    selectProjectType (idEnv true none) [0, 9, 2, 5, 1] ⟨true, FS.empty, []⟩ =
      selectBackendFramework (idEnv true none) [5, 1] ⟨true, FS.empty,
        [] ++ (rounds 2 (Menu.projectType.prompt ++ [invalidLine]) ++ Menu.projectType.prompt)⟩ :=
  (prompt_retry (idEnv true none) Menu.projectType [0, 9] 2 [5, 1] ⟨true, FS.empty, []⟩
    (by decide) (by decide)).1

theorem extends_pre {P : Event → Prop} (w w1 : World) {o : Outcome} (pre : List Event)
    (h1 : w1.useTypeScript = w.useTypeScript) (h2 : w1.trace = w.trace ++ pre)
    (hp : ∀ e ∈ pre, P e) (h : Extends P w1 o) : Extends P w o := by
  obtain ⟨hf, nt, ht, hall⟩ := h
  refine ⟨hf.trans h1, pre ++ nt, by rw [ht, h2, List.append_assoc], ?_⟩
  intro e he
  rcases List.mem_append.1 he with he | he
  · exact hp e he
  · exact hall e he

theorem extends_mono {P Q : Event → Prop} {w : World} {o : Outcome}
    (hpq : ∀ e, P e → Q e) (h : Extends P w o) : Extends Q w o := by
  obtain ⟨hf, nt, ht, hall⟩ := h
  exact ⟨hf, nt, ht, fun e he => hpq e (hall e he)⟩

theorem extends_of_world {P : Event → Prop} (w : World) (o : Outcome) (nt : List Event)
    (hf : o.world.useTypeScript = w.useTypeScript) (ht : o.world.trace = w.trace ++ nt)
    (hall : ∀ e ∈ nt, P e) : Extends P w o :=
  ⟨hf, nt, ht, hall⟩

theorem frontEv_stdout (text : String) (h : text ≠ "Select a backend framework:\n") :
    FrontEv (Event.stdout text) := by
  refine ⟨rfl, ?_⟩
  intro e
  simp only [backendHeader, Event.stdout.injEq] at e
  exact h e

theorem generateFrontendStructure_shape (env : Env) (framework : String)
    (hfw : framework = "react" ∨ framework = "next") (stdin : List Int) (w : World) :
    FrontShape w (generateFrontendStructure env "frontend" framework stdin w) := by
  have hmsg : FrontEv (createdMessage "frontend") := frontEv_stdout _ (by decide)
  have hconf : FrontEv (conflictMessage "frontend") := frontEv_stdout _ (by decide)
  have hfatal : ∀ t, FrontEv (Event.fatal t) := fun t => ⟨rfl, by simp [backendHeader]⟩
  have hexec : ∀ a b, FrontEv (Event.exec a b) := fun a b => ⟨rfl, by simp [backendHeader]⟩
  cases hs : w.fs.stat (resolve w.fs.cwd "frontend") with
  | none =>
    have h := (isDirectoryEmpty_missing "frontend" w (Or.inr hs))
    simp only [generateFrontendStructure, h, emit]
    refine ⟨extends_of_world _ _ [openMissing "frontend"] rfl rfl ?_, ?_⟩
    · intro e he
      simp only [List.mem_singleton] at he
      subst he
      exact hfatal _
    · intro s w2 e
      cases e
  | some n =>
    have h := isDirectoryEmpty_present "frontend" w n (by decide) hs
    by_cases hc : n = Node.dir ∧ w.fs.entries (resolve w.fs.cwd "frontend") = []
    · simp only [hc, and_self, decide_True] at h
      have hret : ∀ argv, FrontShape w (Outcome.returned stdin ⟨w.useTypeScript,
          (env.run argv w.fs).fs, w.trace ++ [Event.exec argv true] ++
            [createdMessage "frontend"]⟩) := by
        intro argv
        refine ⟨extends_of_world _ _ [Event.exec argv true, createdMessage "frontend"] rfl
          (by simp [Outcome.world]) ?_, ?_⟩
        · intro e he
          simp only [List.mem_cons, List.mem_singleton, List.not_mem_nil, or_false] at he
          rcases he with rfl | rfl
          · exact hexec _ _
          · exact hmsg
        · intro s w2 e
          cases e
          exact ⟨[], argv, by simp⟩
      have hexit : ∀ argv text, FrontShape w (Outcome.exited 1 stdin ⟨w.useTypeScript,
          (env.run argv w.fs).fs, w.trace ++ [Event.exec argv false] ++
            [Event.fatal text]⟩) := by
        intro argv text
        refine ⟨extends_of_world _ _ [Event.exec argv false, Event.fatal text] rfl
          (by simp [Outcome.world]) ?_, ?_⟩
        · intro e he
          simp only [List.mem_cons, List.mem_singleton, List.not_mem_nil, or_false] at he
          rcases he with rfl | rfl
          · exact hexec _ _
          · exact hfatal _
        · intro s w2 e
          cases e
      rcases hfw with rfl | rfl
      · simp only [generateFrontendStructure, h, if_true, emit]
        cases (env.run ["npx", "create-react-app", "frontend"] w.fs).err with
        | none => exact hret _
        | some err => exact hexit _ _
      · have hn : ¬ ("next" : String) = "react" := by decide
        simp only [generateFrontendStructure, h, hn, if_false, if_true, emit]
        cases (env.run ["npx", "create-next-app", "frontend"] w.fs).err with
        | none => exact hret _
        | some err => exact hexit _ _
    · simp only [generateFrontendStructure, h, hc, decide_False, emit]
      refine ⟨extends_of_world _ _ [conflictMessage "frontend"] rfl rfl ?_, ?_⟩
      · intro e he
        simp only [List.mem_singleton] at he
        subst he
        exact hconf
      · intro s w2 e
        cases e

theorem frontShape_pre (w w1 : World) {o : Outcome} (pre : List Event)
    (h1 : w1.useTypeScript = w.useTypeScript) (h2 : w1.trace = w.trace ++ pre)
    (hp : ∀ e ∈ pre, FrontEv e) (h : FrontShape w1 o) : FrontShape w o := by
  refine ⟨extends_pre w w1 pre h1 h2 hp h.1, ?_⟩
  intro s w2 e
  obtain ⟨p, argv, hp2⟩ := h.2 s w2 e
  exact ⟨pre ++ p, argv, by rw [hp2, h2]; simp⟩

theorem prompt_frontEv (m : Menu) (hm : m ≠ Menu.backend) :
    ∀ e ∈ m.prompt ++ [invalidLine], FrontEv e := by
  intro e he
  cases m <;>
    simp only [Menu.prompt, List.mem_append, List.mem_cons, List.mem_singleton,
      List.not_mem_nil, or_false] at he
  · rcases he with (rfl | rfl | rfl) | rfl <;> exact frontEv_stdout _ (by decide)
  · rcases he with (rfl | rfl | rfl | rfl) | rfl <;> exact frontEv_stdout _ (by decide)
  · rcases he with (rfl | rfl | rfl) | rfl <;> exact frontEv_stdout _ (by decide)
  · exact absurd rfl hm

theorem selectFrontendFramework_shape (env : Env) (stdin : List Int) :
    ∀ w, FrontShape w (selectFrontendFramework env stdin w) := by
  induction stdin with
  | nil =>
    intro w
    refine ⟨extends_of_world _ _ [] rfl (by simp [selectFrontendFramework, Outcome.world]) (by simp), ?_⟩
    intro s w2 e
    simp [selectFrontendFramework] at e
  | cons tok rest ih =>
    intro w
    have hp := prompt_frontEv Menu.frontend (by decide)
    by_cases hv : tok ∈ Menu.frontend.valid
    · have h := run_valid env Menu.frontend tok hv rest w
      simp only [Menu.run, Menu.dispatch] at h
      rw [h]
      refine frontShape_pre w ⟨w.useTypeScript, w.fs, w.trace ++ Menu.frontend.prompt⟩
        Menu.frontend.prompt rfl rfl (fun e he => hp e (List.mem_append_left _ he)) ?_
      apply generateFrontendStructure_shape
      by_cases h1 : tok = 1
      · simp [h1]
      · simp [h1]
    · have h := run_invalid env Menu.frontend tok hv rest w
      simp only [Menu.run] at h
      rw [h]
      exact frontShape_pre w
        ⟨w.useTypeScript, w.fs, w.trace ++ Menu.frontend.prompt ++ [invalidLine]⟩
        (Menu.frontend.prompt ++ [invalidLine]) rfl
        (by simp [List.append_assoc]) hp (ih _)

theorem mkdirEach_trace (dirs : List String) :
    ∀ (w w2 : World), (mkdirEach dirs w = .ok w2 ∨ mkdirEach dirs w = .error w2) →
      w2.useTypeScript = w.useTypeScript ∧
        ∃ nt, w2.trace = w.trace ++ nt ∧ ∀ e ∈ nt, ∀ p c, e ≠ Event.writeFile p c := by
  induction dirs with
  | nil =>
    intro w w2 h
    rcases h with h | h <;> simp only [mkdirEach] at h
    · cases h
      exact ⟨rfl, [], by simp, by simp⟩
    · cases h
  | cons d rest ih =>
    intro w w2 h
    cases hm : w.fs.mkdirAll d with
    | error err =>
      rcases h with h | h <;> simp only [mkdirEach, hm] at h
      · cases h
      · cases h
        exact ⟨rfl, [Event.fatal ("Error creating directory " ++ d ++ ": " ++ err)], rfl,
          by simp⟩
    | ok fs2 =>
      rw [mkdirEach_step d rest w fs2 hm] at h
      obtain ⟨hf, nt, ht, hall⟩ := ih _ w2 h
      refine ⟨hf, mkdirTrace d ++ nt, by rw [ht, List.append_assoc], ?_⟩
      intro e he
      rcases List.mem_append.1 he with he | he
      · simp only [mkdirTrace, List.mem_cons, List.mem_singleton, List.not_mem_nil,
          or_false] at he
        rcases he with rfl | rfl <;> simp
      · exact hall e he

theorem writeEach_extends (files : List (String × String)) (stdin : List Int) :
    ∀ w, Extends (fun e => ∀ p c, e = Event.writeFile p c → (p, c) ∈ files) w
      (writeEach files stdin w) := by
  induction files with
  | nil =>
    intro w
    exact extends_of_world _ _ [] rfl (by simp [writeEach, Outcome.world]) (by simp)
  | cons f rest ih =>
    intro w
    obtain ⟨path, content⟩ := f
    cases hw : w.fs.writeFile path content with
    | error err =>
      simp only [writeEach, hw, emit]
      exact extends_of_world _ _ [Event.fatal ("Error creating file " ++ path ++ ": " ++ err)]
        rfl rfl (by simp)
    | ok fs2 =>
      simp only [writeEach, hw, emit]
      refine extends_pre w ⟨w.useTypeScript, fs2, w.trace ++ [Event.writeFile path content]
          ++ [Event.stdout ("Created file: " ++ path ++ "\n")]⟩
        (writeTrace path content) rfl (by simp [writeTrace]) ?_
        (extends_mono ?_ (ih _))
      · intro e he p c hpc
        simp only [writeTrace, List.mem_cons, List.mem_singleton, List.not_mem_nil,
          or_false] at he
        rcases he with rfl | rfl
        · cases hpc; simp
        · cases hpc
      · intro e h p c hpc
        exact List.mem_cons_of_mem _ (h p c hpc)

theorem generateBackendStructure_extends (env : Env) (stdin : List Int) (w : World) :
    Extends (BackEv w.useTypeScript) w (generateBackendStructure env "backend" stdin w) := by
  cases hm : mkdirEach (backendDirs "backend") w with
  | error w2 =>
    obtain ⟨hf, nt, ht, hall⟩ := mkdirEach_trace _ w w2 (Or.inr hm)
    simp only [generateBackendStructure, hm]
    exact extends_of_world _ _ nt hf ht (fun e he p c hpc => absurd hpc (hall e he p c))
  | ok w2 =>
    obtain ⟨hf, nt, ht, hall⟩ := mkdirEach_trace _ w w2 (Or.inl hm)
    simp only [generateBackendStructure, hm, createFiles]
    refine extends_pre w w2 nt hf ht (fun e he p c hpc => absurd hpc (hall e he p c))
      (extends_mono ?_ (writeEach_extends _ stdin w2))
    intro e h p c hpc
    have hmem := (env.rangeOrder_perm _).subset (h p c hpc)
    rw [backendFiles_eq] at hmem
    simp only [List.mem_cons, Prod.mk.injEq, List.mem_singleton, List.not_mem_nil,
      or_false] at hmem
    rcases hmem with ⟨rfl, _⟩ | ⟨rfl, _⟩
    · exact Or.inr rfl
    · exact Or.inl rfl

theorem backEv_stdout (ts : Bool) (text : String) : BackEv ts (Event.stdout text) := by
  intro p c h
  cases h

theorem selectBackendFramework_extends (env : Env) (stdin : List Int) :
    ∀ w, Extends (BackEv w.useTypeScript) w (selectBackendFramework env stdin w) := by
  induction stdin with
  | nil =>
    intro w
    exact extends_of_world _ _ [] rfl (by simp [selectBackendFramework, Outcome.world])
      (by simp)
  | cons tok rest ih =>
    intro w
    have hp : ∀ e ∈ Menu.backend.prompt ++ [invalidLine], BackEv w.useTypeScript e := by
      intro e he
      simp only [Menu.prompt, invalidLine, List.mem_append, List.mem_cons, List.mem_singleton,
        List.not_mem_nil, or_false] at he
      rcases he with (rfl | rfl) | rfl <;> exact backEv_stdout _ _
    by_cases hv : tok ∈ Menu.backend.valid
    · have h := run_valid env Menu.backend tok hv rest w
      simp only [Menu.run, Menu.dispatch] at h
      rw [h]
      exact extends_pre w ⟨w.useTypeScript, w.fs, w.trace ++ Menu.backend.prompt⟩
        Menu.backend.prompt rfl rfl
        (fun e he => hp e (List.mem_append_left _ he))
        (generateBackendStructure_extends env rest
          ⟨w.useTypeScript, w.fs, w.trace ++ Menu.backend.prompt⟩)
    · have h := run_invalid env Menu.backend tok hv rest w
      simp only [Menu.run] at h
      rw [h]
      exact extends_pre w
        ⟨w.useTypeScript, w.fs, w.trace ++ Menu.backend.prompt ++ [invalidLine]⟩
        (Menu.backend.prompt ++ [invalidLine]) rfl
        (by simp [List.append_assoc]) hp
        (ih ⟨w.useTypeScript, w.fs, w.trace ++ Menu.backend.prompt ++ [invalidLine]⟩)

theorem split_after (nt bt pre post : List Event) (e : Event)
    (h : nt ++ bt = pre ++ e :: post) (hne : e ∉ nt) : ∃ a, pre = nt ++ a := by
  rcases List.append_eq_append_iff.1 h with ⟨a, ha, _⟩ | ⟨c, hc, hd⟩
  · exact ⟨a, ha⟩
  · cases c with
    | nil => exact ⟨[], by simpa using hc.symm⟩
    | cons x cs =>
      simp only [List.cons_append, List.cons.injEq] at hd
      exact absurd (by rw [hc, hd.1]; simp) hne

theorem not_frontEv (e : Event) (h : e.isFsWrite = true ∨ e = backendHeader) : ¬ FrontEv e := by
  rintro ⟨h1, h2⟩
  rcases h with h | h
  · rw [h1] at h; cases h
  · exact h2 h

/-- C4: when the project-type prompt reads 3, the run is frontend selection followed,
only if that returns, by backend selection. Any backend prompt, directory creation or file
write in the trace comes after a successful run of the external generator and its success
message; and when the frontend step exits the process, the whole run exits there with the
same status, having shown no backend prompt and issued no directory creation or file
write. -/
theorem fullstack_order (env : Env) (rest : List Int) (w : World) :
    selectProjectType env (3 :: rest) w =
        (selectFrontendFramework env rest
          ⟨w.useTypeScript, w.fs, w.trace ++ Menu.projectType.prompt⟩).andThen
          (selectBackendFramework env) ∧
      (∀ pre e post,
        (selectProjectType env (3 :: rest) w).world.trace
            = w.trace ++ Menu.projectType.prompt ++ pre ++ e :: post →
          (e.isFsWrite = true ∨ e = backendHeader) →
          ∃ argv, Event.exec argv true ∈ pre ∧ createdMessage "frontend" ∈ pre) ∧
      (∀ code s w2,
        selectFrontendFramework env rest
            ⟨w.useTypeScript, w.fs, w.trace ++ Menu.projectType.prompt⟩ = .exited code s w2 →
          selectProjectType env (3 :: rest) w = .exited code s w2 ∧
          ∃ nt, w2.trace = w.trace ++ Menu.projectType.prompt ++ nt ∧
            ∀ e ∈ nt, e.isFsWrite = false ∧ e ≠ backendHeader) := by
  have hrun := run_valid env Menu.projectType 3 (by decide) rest w
  simp only [Menu.run, Menu.dispatch] at hrun
  have h31 : ¬ (3 : Int) = 1 := by decide
  have h32 : ¬ (3 : Int) = 2 := by decide
  simp only [h31, h32, if_false] at hrun
  obtain ⟨⟨_, nt, hnt, hall⟩, hret⟩ := selectFrontendFramework_shape env rest
    ⟨w.useTypeScript, w.fs, w.trace ++ Menu.projectType.prompt⟩
  refine ⟨hrun, ?_, ?_⟩
  · intro pre e post htr he
    rw [hrun] at htr
    have hnot : e ∉ nt := fun hmem => not_frontEv e he (hall e hmem)
    cases hfront : selectFrontendFramework env rest
        ⟨w.useTypeScript, w.fs, w.trace ++ Menu.projectType.prompt⟩ with
    | returned s w2 =>
      rw [hfront] at htr hnt
      change (selectBackendFramework env s w2).world.trace = _ at htr
      change w2.trace = _ at hnt
      obtain ⟨_, bt, hbt, _⟩ := selectBackendFramework_extends env s w2
      obtain ⟨p0, argv, hp0⟩ := hret s w2 hfront
      rw [hbt, hnt] at htr
      simp only [List.append_assoc] at htr
      have hcut := List.append_cancel_left (List.append_cancel_left htr)
      obtain ⟨a, ha⟩ := split_after nt bt pre post e hcut hnot
      have hnt2 : nt = p0 ++ [Event.exec argv true, createdMessage "frontend"] := by
        rw [hnt] at hp0
        simp only [List.append_assoc] at hp0
        exact List.append_cancel_left (List.append_cancel_left hp0)
      refine ⟨argv, ?_, ?_⟩ <;> rw [ha, hnt2] <;> simp
    | exited c s w2 =>
      rw [hfront] at htr hnt
      change w2.trace = _ at htr
      change w2.trace = _ at hnt
      rw [hnt] at htr
      simp only [List.append_assoc] at htr
      have hcut := List.append_cancel_left (List.append_cancel_left htr)
      exact absurd (by rw [hcut]; simp) hnot
    | diverged w2 =>
      rw [hfront] at htr hnt
      change w2.trace = _ at htr
      change w2.trace = _ at hnt
      rw [hnt] at htr
      simp only [List.append_assoc] at htr
      have hcut := List.append_cancel_left (List.append_cancel_left htr)
      exact absurd (by rw [hcut]; simp) hnot
  · intro code s w2 hfront
    rw [hfront] at hnt
    change w2.trace = _ at hnt
    exact ⟨by rw [hrun, hfront]; rfl, nt, hnt, hall⟩

/-- C8: for every base path and both values of the extension flag, the manifest built by
generateBackendStructure has exactly two entries, the index file and package.json, under
distinct keys that also denote distinct locations from every working directory; and each
key denotes a location strictly below the one the base path denotes. -/
theorem backendFiles_keys (basePath : String) (ts : Bool) :
    backendFiles basePath ts =
        [ (Join [basePath, "src", "index" ++ backendExt ts], sampleExpressApp),
          (Join [basePath, "package.json"], expressPackageJSON) ] ∧
      (backendFiles basePath ts).length = 2 ∧
      ((backendFiles basePath ts).map Prod.fst).Nodup ∧
      Join [basePath, "src", "index" ++ backendExt ts] ≠ Join [basePath, "package.json"] ∧
      (∀ cwd, resolve cwd (Join [basePath, "src", "index" ++ backendExt ts])
        ≠ resolve cwd (Join [basePath, "package.json"])) ∧
      ∀ k ∈ (backendFiles basePath ts).map Prod.fst,
        ∃ rel, rel ≠ [] ∧ (∀ x ∈ rel, IsName x) ∧
          ∀ cwd, resolve cwd k = resolve cwd basePath ++ rel := by
  have hne := index_ne_pkg basePath ts
  have heq := backendFiles_eq basePath ts
  refine ⟨heq, by rw [heq]; rfl, by rw [heq]; simp [hne], hne, ?_, ?_⟩
  · intro cwd e
    rw [resolve_srcChild _ _ _ (isName_index ts), resolve_pkg] at e
    simpa using congrArg List.length e
  · intro k hk
    rw [heq] at hk
    simp only [List.map_cons, List.map_nil, List.mem_cons, List.mem_singleton,
      List.not_mem_nil, or_false] at hk
    rcases hk with rfl | rfl
    · refine ⟨["src", "index" ++ backendExt ts], by simp, ?_,
        fun cwd => resolve_srcChild cwd basePath _ (isName_index ts)⟩
      intro x hx
      simp only [List.mem_cons, List.mem_singleton, List.not_mem_nil, or_false] at hx
      rcases hx with rfl | rfl
      · decide
      · exact isName_index ts
    · refine ⟨["package.json"], by simp, ?_, fun cwd => resolve_pkg cwd basePath⟩
      intro x hx
      simp only [List.mem_singleton, List.mem_cons, List.not_mem_nil, or_false] at hx
      subst hx
      decide

/-- C10: the text returned by expressPackageJSON, which the manifest stores under the
package.json key for every base path and both values of the extension flag, is a valid
JSON document: an object whose dependencies member is an object with the single member
express, bound to the string ^4.17.1. -/
theorem expressPackageJSON_valid :
    parseJSON expressPackageJSON =
        some (JSON.obj [("name", JSON.str "express-app"), ("version", JSON.str "1.0.0"),
          ("dependencies", JSON.obj [("express", JSON.str "^4.17.1")])]) ∧
      ∀ basePath ts,
        (backendFiles basePath ts).lookup (Join [basePath, "package.json"])
          = some expressPackageJSON := by
  refine ⟨rfl, ?_⟩
  intro basePath ts
  have hne : (Join [basePath, "package.json"] == Join [basePath, "src", "index" ++ backendExt ts])
      = false := by
    simp only [beq_eq_false_iff_ne, ne_eq]
    exact fun e => index_ne_pkg basePath ts e.symm
  rw [backendFiles_eq]
  simp [List.lookup, hne]

theorem fullstack_order_witness :
    selectProjectType (idEnv true none) (3 :: [1, 1]) ⟨false, FS.empty, []⟩ =
      .exited 1 [1] ⟨false, FS.empty,
        [] ++ Menu.projectType.prompt ++ Menu.frontend.prompt ++ [openMissing "frontend"]⟩ :=
  ((fullstack_order (idEnv true none) [1, 1] ⟨false, FS.empty, []⟩).2.2 1 [1]
    ⟨false, FS.empty,
      [] ++ Menu.projectType.prompt ++ Menu.frontend.prompt ++ [openMissing "frontend"]⟩
    (by decide)).1

theorem backendFiles_keys_witness :
    ∃ rel, rel ≠ [] ∧ (∀ x ∈ rel, IsName x) ∧
      ∀ cwd, resolve cwd "backend/package.json" = resolve cwd "backend" ++ rel :=
  (backendFiles_keys "backend" true).2.2.2.2.2 "backend/package.json" (by decide)

end TemplateCli
